import Mathlib

/-!
Verification of the pptx-toolkit color-rewriting core.

This file gives a shallow embedding (over `List Char` strings) of the
pure computational core of the repository:

* `parser.go`   — scheme-color vocabulary, hex validation, `ParseColorMapping`;
* `processor.go`— the three regex-based rewriters `ReplaceSchemeColors`,
                  `ReplaceSrgbColors`, `ReplaceSchemeColorsWithSrgb`,
                  including a faithful leftmost-first backtracking matcher
                  for the exact regular expressions the Go code compiles;
* `pptx.go`     — `getSlideTheme`, `shouldProcessFile`, `validateThemeFilter`,
                  `getXMLPatterns` and the per-part processing loop of
                  `ProcessPPTX` (file-system I/O is abstracted to an explicit
                  list of archive parts);
* the slide-range / slide-number helpers (`ParseSlideRange`,
  `ValidateSlideNumbers`).

Go `string` / `[]byte` values are embedded as `List Char` (all the inputs
the claims are about are ASCII).  Go maps used as assoc tables are embedded
as association lists in insertion order; lookups never depend on Go's map
iteration order except where noted in comments.
-/

namespace PptxToolkit

/-- Str is the embedding of Go strings / byte slices. -/
abbrev Str := List Char

/-- Conversion from a Lean string literal to the embedding. -/
def str (s : String) : Str := s.toList

/-! ### Basic string utilities (embedding Go's `strings` / `strconv` helpers) -/

/-- Embeds `strings.Split(s, sep)` for a single-character separator. -/
def splitOnChar (sep : Char) : Str → List Str
  | [] => [[]]
  | c :: cs =>
    let rest := splitOnChar sep cs
    if c = sep then
      [] :: rest
    else
      match rest with
      | [] => [[c]]
      | r :: rs => (c :: r) :: rs

/-- Whitespace test used by `strings.TrimSpace` (ASCII subset; the Go
function also trims some Unicode spaces, which never occur in the inputs
the claims quantify over). -/
def isSpaceChar (c : Char) : Bool :=
  c = ' ' || c = '\t' || c = '\n' || c = '\x0b' || c = '\x0c' || c = '\r'

/-- Drops leading whitespace. -/
def trimLeft : Str → Str
  | [] => []
  | c :: cs => if isSpaceChar c then trimLeft cs else c :: cs

/-- Embeds `strings.TrimSpace`. -/
def trimSpace (s : Str) : Str :=
  ((trimLeft s).reverse |> trimLeft).reverse

/-- Embeds `strings.Contains(s, string(c))` for a one-character needle. -/
def containsChar (s : Str) (c : Char) : Bool :=
  s.any (fun x => x = c)

/-- Embeds `strings.HasPrefix`. -/
def hasPre : Str → Str → Bool
  | [], _ => true
  | _ :: _, [] => false
  | p :: ps, c :: cs => p = c && hasPre ps cs

/-- Embeds `strings.HasSuffix`. -/
def hasSuf (suf s : Str) : Bool :=
  hasPre suf.reverse s.reverse

/-- Embeds `strings.TrimSuffix`. -/
def trimSuf (s suf : Str) : Str :=
  if hasSuf suf s then s.take (s.length - suf.length) else s

/-- Embeds `strings.ToUpper` (ASCII; the values it is applied to are hex
digit strings and XML names). -/
def upper (s : Str) : Str := s.map Char.toUpper

/-- Embeds `strings.Join(parts, ", ")`-style joining. -/
def joinSep (sep : Str) : List Str → Str
  | [] => []
  | [x] => x
  | x :: xs => x ++ sep ++ joinSep sep xs

/-- Lookup in an association-list embedding of a Go map. -/
def alookup (m : List (Str × Str)) (k : Str) : Option Str :=
  match m with
  | [] => none
  | (a, b) :: rest => if a = k then some b else alookup rest k

/-- Decimal digit character. -/
def digitChar (n : Nat) : Char := Char.ofNat (48 + n)

/-- Decimal digit expansion with an explicit recursion budget (the
budget is only a structural-recursion device: `natToStr` always supplies
enough). -/
def natToStrF : Nat → Nat → Str
  | 0, n => [digitChar n]
  | fuel + 1, n =>
    if n < 10 then [digitChar n]
    else natToStrF fuel (n / 10) ++ [digitChar (n % 10)]

/-- Decimal representation of a natural number (embeds `fmt.Sprintf("%d")`
for non-negative values). -/
def natToStr (n : Nat) : Str := natToStrF n n

/-- Decimal representation of an integer (embeds `fmt.Sprintf("%d")`). -/
def intToStr (n : Int) : Str :=
  if n < 0 then '-' :: natToStr n.natAbs else natToStr n.natAbs

/-- Digit test for `strconv.Atoi`. -/
def isDigitChar (c : Char) : Bool := 48 ≤ c.toNat && c.toNat ≤ 57

/-- Value of a run of decimal digits. -/
def digitsVal (s : Str) : Nat :=
  s.foldl (fun acc c => 10 * acc + (c.toNat - 48)) 0

/-- Digit-run parsing of `strconv.Atoi`: a nonempty all-digit string, or
a failure. -/
def atoiDigits (d : Str) : Option Nat :=
  if d ≠ [] && d.all isDigitChar then some (digitsVal d) else none

/-- Embeds `strconv.Atoi`: an optional leading sign byte followed by at
least one decimal digit; anything else is an error.  (Go additionally
range-checks against 64-bit overflow, which cannot trigger on the inputs
the claims quantify over; the embedding uses unbounded `Int`.) -/
def atoi (s : Str) : Except Str Int :=
  match s with
  | [] => .error s
  | c :: rest =>
    if c = '-' then
      match atoiDigits rest with
      | some n => .ok (-(n : Int))
      | none => .error s
    else if c = '+' then
      match atoiDigits rest with
      | some n => .ok (n : Int)
      | none => .error s
    else
      match atoiDigits (c :: rest) with
      | some n => .ok (n : Int)
      | none => .error s

/-- Lexicographic strict comparison of strings (embeds Go's `<` on
strings, byte-wise). -/
def strLt : Str → Str → Bool
  | [], [] => false
  | [], _ :: _ => true
  | _ :: _, [] => false
  | a :: as, b :: bs => if a = b then strLt as bs else decide (a < b)

/-- Insertion into a `strLt`-sorted list. -/
def sortedInsert (x : Str) : List Str → List Str
  | [] => [x]
  | y :: ys => if strLt x y then x :: y :: ys else y :: sortedInsert x ys

/-- Insertion sort by `strLt`; this computes the same sorted arrangement
as the bubble sort the Go code uses in `validateThemeFilter`. -/
def sortStrs : List Str → List Str
  | [] => []
  | x :: xs => sortedInsert x (sortStrs xs)

/-- Appends `x` unless already present (embeds building up the key set of
a Go map in iteration order). -/
def addUnique (acc : List Str) (x : Str) : List Str :=
  if acc.contains x then acc else acc ++ [x]

/-- Embeds `filepath.Base` for slash-separated paths as used on the
relationship targets ("../theme/theme1.xml" ↦ "theme1.xml"). -/
def baseName (s : Str) : Str :=
  match (splitOnChar '/' s).reverse.find? (fun p => p ≠ []) with
  | some p => p
  | none => str "."

/-- Substring test (used to state "the error message names X"). -/
def containsSub (needle hay : Str) : Bool :=
  match hay with
  | [] => needle = []
  | _ :: rest => hasPre needle hay || containsSub needle rest

/-- Embeds `strings.Index(hay, needle)` (first occurrence, -1 ↦ `none`). -/
def firstIdx (hay needle : Str) : Option Nat :=
  match hay with
  | [] => if needle = [] then some 0 else none
  | _ :: rest =>
    if hasPre needle hay then some 0
    else (firstIdx rest needle).map (· + 1)

/-! ### parser.go: color vocabulary and mapping parser -/

/-- Embeds the `ValidSchemeColors` set from parser.go (the 12 scheme
tokens). -/
def schemeTokens : List Str :=
  [str "dk1", str "lt1", str "dk2", str "lt2",
   str "accent1", str "accent2", str "accent3",
   str "accent4", str "accent5", str "accent6",
   str "hlink", str "folHlink"]

/-- Embeds the membership test `ValidSchemeColors[color]`. -/
def ValidSchemeColors (color : Str) : Bool :=
  schemeTokens.contains color

/-- Hex digit test, embedding the character class of `hexColorPattern`. -/
def isHexDigit (c : Char) : Bool :=
  (48 ≤ c.toNat && c.toNat ≤ 57) ||
  (65 ≤ c.toNat && c.toNat ≤ 70) ||
  (97 ≤ c.toNat && c.toNat ≤ 102)

/-- Embeds `isValidHexColor`: `^[0-9A-Fa-f]{6}$`. -/
def isValidHexColor (color : Str) : Bool :=
  color.length = 6 && color.all isHexDigit

/-- Embeds `isValidColor`. -/
def isValidColor (color : Str) : Bool :=
  ValidSchemeColors color || isValidHexColor color

/-- Embeds `getValidColorsString` (sorted, comma-separated scheme tokens;
the Go map iteration order is immaterial because the result is sorted). -/
def getValidColorsString : Str :=
  joinSep (str ", ") (sortStrs schemeTokens)

/-- Error text of a conflicting mapping, embedding the `fmt.Errorf`
format in `ParseColorMapping`. -/
def conflictMsg (source existing target : Str) : Str :=
  str "conflicting mappings for '" ++ source ++ str "':\n  - " ++
  source ++ str " → " ++ existing ++ str "\n  - " ++
  source ++ str " → " ++ target

/-- Error text for an invalid source/target color (side = "source" or
"target"). -/
def invalidColorMsg (side color : Str) : Str :=
  str "invalid " ++ side ++ str " color: '" ++ color ++
  str "'. Must be a valid scheme color (" ++ getValidColorsString ++
  str ") or 6-digit hex color (e.g., AABBCC)"

/-- One step of the table-building loop of `ParseColorMapping`: processes
one comma-separated pair against the table built so far. -/
def parsePairStep (mappings : List (Str × Str)) (pair0 : Str) :
    Except Str (List (Str × Str)) :=
  let pair := trimSpace pair0
  if pair = [] then .ok mappings
  else if ¬ containsChar pair ':' then
    .error (str "invalid mapping format: '" ++ pair ++ str "'. Expected 'source:target'")
  else
    -- the Go code checks `len(parts) != 2`; matching on the two-element
    -- shape of the split is the same check
    match splitOnChar ':' pair with
    | [source0, target0] =>
      let source := trimSpace source0
      let target := trimSpace target0
      if source = [] ∨ target = [] then
        .error (str "invalid mapping: '" ++ pair ++ str "'. Source and target cannot be empty")
      else if ¬ isValidColor source then
        -- the inner `isValidHexColor` re-check in the Go code is dead
        -- (isValidColor already covers it); embedded faithfully anyway
        if isValidHexColor source then
          .error (str "internal error validating source color: '" ++ source ++ str "'")
        else .error (invalidColorMsg (str "source") source)
      else if ¬ isValidColor target then
        if isValidHexColor target then
          .error (str "internal error validating target color: '" ++ target ++ str "'")
        else .error (invalidColorMsg (str "target") target)
      else
        match alookup mappings source with
        | some existingTarget =>
          if existingTarget ≠ target then
            .error (conflictMsg source existingTarget target)
          else .ok mappings
        | none => .ok (mappings ++ [(source, target)])
    | _ =>
      .error (str "invalid mapping format: '" ++ pair ++ str "'. Expected exactly one ':'")

/-- The table-building loop of `ParseColorMapping` over the list of
comma-separated pairs. -/
def parsePairs (pairs : List Str) (mappings : List (Str × Str)) :
    Except Str (List (Str × Str)) :=
  match pairs with
  | [] => .ok mappings
  | p :: rest =>
    match parsePairStep mappings p with
    | .ok m => parsePairs rest m
    | .error e => .error e

/-- Embeds `ParseColorMapping` from parser.go.  The returned table keeps
insertion order (the Go map plus its implicit ordering by first
insertion; all later lookups are key-based so the order is immaterial). -/
def ParseColorMapping (mappingStr0 : Str) : Except Str (List (Str × Str)) :=
  let mappingStr := trimSpace mappingStr0
  if mappingStr = [] then .error (str "mapping string cannot be empty")
  else
    match parsePairs (splitOnChar ',' mappingStr) [] with
    | .error e => .error e
    | .ok mappings =>
      if mappings = [] then .error (str "no valid mappings found")
      else .ok mappings

/-! ### A leftmost-first backtracking regex matcher

processor.go drives all three rewriters from `regexp` patterns via
`FindAllSubmatchIndex`.  Go's regexp package implements leftmost-first
(Perl-style) match semantics: the match starts as early as possible and,
among matches at that start, is the one a backtracking search finds first
(greedy operators prefer longer, lazy operators shorter, alternation
prefers the left branch).  The syntax fragment the three patterns use is
small: literals, single-character classes, greedy `*`/`+`/`?` over a
class, lazy `*?` over a class, alternation, and capture groups.  `Re`
below is exactly that fragment and `mrun` is a CPS backtracking matcher
with those preferences; `\s` is RE2's `[\t\n\f\r ]`. -/

/-- Regular-expression fragment used by processor.go's three patterns. -/
inductive Re where
  | eps : Re
  | lit : Char → Re
  | cls : (Char → Bool) → Re
  | seq : Re → Re → Re
  | alt : Re → Re → Re
  | starG : (Char → Bool) → Re
  | starL : (Char → Bool) → Re
  | plusG : (Char → Bool) → Re
  | optG : Char → Re
  | group : Nat → Re → Re

/-- Captured groups: group number ↦ captured text (first binding wins). -/
abbrev Groups := List (Nat × Str)

/-- Continuation type of the matcher: receives the reversed text
consumed so far (within the current capture scope), the remaining input,
and the groups. -/
abbrev K := Str → Str → Groups → Option (Str × Groups × Str)

/-- Greedy Kleene star over a character class, in CPS: consume as many
`p`-characters as possible, backtracking to shorter consumptions (the
continuation is tried at the deepest position first). -/
def runStarG (p : Char → Bool) (acc : Str) : Str → Groups → K → Option (Str × Groups × Str)
  | [], g, k => k acc [] g
  | x :: xs, g, k =>
    if p x then (runStarG p (x :: acc) xs g k).orElse (fun _ => k acc (x :: xs) g)
    else k acc (x :: xs) g

/-- Lazy Kleene star over a character class, in CPS: try the
continuation at the current position first, then consume one
`p`-character and repeat. -/
def runStarL (p : Char → Bool) (acc : Str) : Str → Groups → K → Option (Str × Groups × Str)
  | s, g, k =>
    (k acc s g).orElse (fun _ =>
      match s with
      | [] => none
      | x :: xs => if p x then runStarL p (x :: acc) xs g k else none)

/-- CPS backtracking matcher.  `mrun r acc s g k` tries to match `r` at
the start of `s` with groups `g`; `acc` is the reversed text consumed so
far in the current capture scope.  Alternatives are explored in Perl
preference order and the first success wins (`Option.orElse`). -/
def mrun : Re → Str → Str → Groups → K → Option (Str × Groups × Str)
  | .eps, acc, s, g, k => k acc s g
  | .lit c, acc, s, g, k =>
    match s with
    | [] => none
    | x :: xs => if x = c then k (x :: acc) xs g else none
  | .cls p, acc, s, g, k =>
    match s with
    | [] => none
    | x :: xs => if p x then k (x :: acc) xs g else none
  | .seq a b, acc, s, g, k => mrun a acc s g (fun a1 s1 g1 => mrun b a1 s1 g1 k)
  | .alt a b, acc, s, g, k =>
    (mrun a acc s g k).orElse (fun _ => mrun b acc s g k)
  | .starG p, acc, s, g, k => runStarG p acc s g k
  | .starL p, acc, s, g, k => runStarL p acc s g k
  | .plusG p, acc, s, g, k =>
    match s with
    | [] => none
    | x :: xs => if p x then runStarG p (x :: acc) xs g k else none
  | .optG c, acc, s, g, k =>
    match s with
    | [] => k acc [] g
    | x :: xs =>
      if x = c then (k (x :: acc) xs g).orElse (fun _ => k acc (x :: xs) g)
      else k acc (x :: xs) g
  | .group n r, acc, s, g, k =>
    mrun r [] s g (fun accIn s1 g1 => k (accIn ++ acc) s1 ((n, accIn.reverse) :: g1))

/-- Tries a match of `r` at the start of `s`; on success returns the
consumed text, the groups, and the remaining input. -/
def matchAt (r : Re) (s : Str) : Option (Str × Groups × Str) :=
  mrun r [] s [] (fun acc rest g => some (acc.reverse, g, rest))

/-- One scanned item of `FindAllSubmatchIndex`: the unmatched gap before
the match, the submatch captures, and the full matched text. -/
abbrev ScanItem := Str × Groups × Str

/-- Prepends a character to the gap preceding the first match (or to the
trailing gap when there is no match). -/
def consGap (c : Char) : List ScanItem × Str → List ScanItem × Str
  | ([], tail) => ([], c :: tail)
  | ((gap, g, m) :: ms, tail) => ((c :: gap, g, m) :: ms, tail)

/-- Embeds `FindAllSubmatchIndex`: the successive leftmost matches of `r`
in `s`, non-overlapping, each scanned from the end of the previous match,
together with the unmatched gaps (so that the input is the concatenation
gap₀ ++ match₀ ++ gap₁ ++ match₁ ++ … ++ tail).  The three patterns in
processor.go can never match the empty string (each starts with a literal
`<`), so the empty-match advance rule of Go's scanner is unreachable and
a zero-width match is simply skipped here. -/
def reScanF (r : Re) : Nat → Str → List ScanItem × Str
  | _, [] => ([], [])
  | 0, s => ([], s)
  | fuel + 1, c :: rest =>
    match matchAt r (c :: rest) with
    | some (consumed, g, rem) =>
      if rem.length < (c :: rest).length then
        let pr := reScanF r fuel rem
        (([], g, consumed) :: pr.1, pr.2)
      else consGap c (reScanF r fuel rest)
    | none => consGap c (reScanF r fuel rest)

/-- Scanner entry point: the budget `s.length` always suffices because
every iteration (matched or not) shortens the remaining input by at
least one character. -/
def reScan (r : Re) (s : Str) : List ScanItem × Str :=
  reScanF r s.length s

/-- Looks up a capture group in a match result. -/
def getGroup (g : Groups) (n : Nat) : Option Str :=
  match g with
  | [] => none
  | (m, v) :: rest => if m = n then some v else getGroup rest n

/-- Capture text of group `n`, defaulting to the empty string (used only
where the Go code is statically guaranteed a group matched). -/
def groupD (g : Groups) (n : Nat) : Str := (getGroup g n).getD []

/-! ### processor.go: the three compiled patterns -/

/-- Character class `[^:>]`. -/
def notColonGt (c : Char) : Bool := ¬ (c = ':' || c = '>')

/-- Character class `[^>]`. -/
def notGt (c : Char) : Bool := ¬ (c = '>')

/-- Character class `[^"]`. -/
def notQuote (c : Char) : Bool := ¬ (c = '"')

/-- RE2's `\s`, i.e. `[\t\n\f\r ]`. -/
def reSpace (c : Char) : Bool :=
  c = '\t' || c = '\n' || c = '\x0c' || c = '\r' || c = ' '

/-- Character class `[\s\S]` (any character). -/
def anyChar (_ : Char) : Bool := true

/-- Sequencing of a list of pattern pieces. -/
def reSeqL : List Re → Re
  | [] => .eps
  | [r] => r
  | r :: rs => .seq r (reSeqL rs)

/-- A sequence of literal characters. -/
def reLits (s : Str) : Re := reSeqL (s.map .lit)

/-- Pattern of `ReplaceSchemeColors` (and of the fast path of
`ReplaceSchemeColorsWithSrgb`), transliterating
`(<[^:>]*:?schemeClr[^>]*\sval=")([^"]+)(")`. -/
def patScheme : Re :=
  reSeqL
    [.group 1 (reSeqL
        [.lit '<', .starG notColonGt, .optG ':', reLits (str "schemeClr"),
         .starG notGt, .cls reSpace, reLits (str "val=\"")]),
     .group 2 (.plusG notQuote),
     .group 3 (.lit '"')]

/-- Pattern of `ReplaceSrgbColors`, transliterating
`(<[^:>]*:?srgbClr[^>]*\sval=")([0-9A-Fa-f]{6})(")`. -/
def patSrgb : Re :=
  reSeqL
    [.group 1 (reSeqL
        [.lit '<', .starG notColonGt, .optG ':', reLits (str "srgbClr"),
         .starG notGt, .cls reSpace, reLits (str "val=\"")]),
     .group 2 (reSeqL
        [.cls isHexDigit, .cls isHexDigit, .cls isHexDigit,
         .cls isHexDigit, .cls isHexDigit, .cls isHexDigit]),
     .group 3 (.lit '"')]

/-- Pattern of the slow path of `ReplaceSchemeColorsWithSrgb`,
transliterating the two-alternative pattern
`(<[^:>]*:?)(schemeClr)(\s+val=")([^"]+)("(?:[^>]*?))(/>)` `|`
`(<[^:>]*:?)(schemeClr)(\s+val=")([^"]+)("(?:[^>]*?))(>)([\s\S]*?</[^:>]*:?schemeClr>)`
(groups 1–6 for the self-closing alternative, 7–13 for the container
alternative, matching Go's submatch numbering). -/
def patFull : Re :=
  .alt
    (reSeqL
      [.group 1 (reSeqL [.lit '<', .starG notColonGt, .optG ':']),
       .group 2 (reLits (str "schemeClr")),
       .group 3 (.seq (.plusG reSpace) (reLits (str "val=\""))),
       .group 4 (.plusG notQuote),
       .group 5 (.seq (.lit '"') (.starL notGt)),
       .group 6 (reLits (str "/>"))])
    (reSeqL
      [.group 7 (reSeqL [.lit '<', .starG notColonGt, .optG ':']),
       .group 8 (reLits (str "schemeClr")),
       .group 9 (.seq (.plusG reSpace) (reLits (str "val=\""))),
       .group 10 (.plusG notQuote),
       .group 11 (.seq (.lit '"') (.starL notGt)),
       .group 12 (.lit '>'),
       .group 13 (.seq (.starL anyChar)
          (reSeqL [reLits (str "</"), .starG notColonGt, .optG ':',
                   reLits (str "schemeClr"), .lit '>']))])

/-! ### processor.go: the three rewriters -/

/-- Per-match rewrite of `ReplaceSchemeColors`: writes group 1, then the
mapped (or original) color value, then group 3. -/
def schemeItem (m : List (Str × Str)) (it : ScanItem) : Str :=
  let currentColor := groupD it.2.1 2
  it.1 ++ groupD it.2.1 1 ++
    (match alookup m currentColor with
     | some newColor => newColor
     | none => currentColor) ++
    groupD it.2.1 3

/-- Embeds `ReplaceSchemeColors` from processor.go.  The Go function's
`error` result is the literal `nil` on every return path, embedded as
`Except.ok`. -/
def ReplaceSchemeColors (xmlContent : Str) (colorMapping : List (Str × Str)) :
    Except Str Str :=
  if colorMapping = [] then .ok xmlContent
  else
    let scanned := reScan patScheme xmlContent
    if scanned.1 = [] then .ok xmlContent
    else .ok ((scanned.1.map (schemeItem colorMapping)).flatten ++ scanned.2)

/-- Builds the uppercase-keyed hex mapping of `ReplaceSrgbColors` (only
hex sources are kept; keys are uppercased).  The Go original fills a map
while ranging over `colorMapping`; with distinct uppercased keys the
iteration order is immaterial, and the embedding keeps list order. -/
def buildHexMapping (colorMapping : List (Str × Str)) : List (Str × Str) :=
  colorMapping.foldl
    (fun acc p => if isValidHexColor p.1 then acc ++ [(upper p.1, p.2)] else acc) []

/-- Per-match rewrite of `ReplaceSrgbColors`. -/
def srgbItem (hexMapping : List (Str × Str)) (it : ScanItem) : Str :=
  let currentHex := upper (groupD it.2.1 2)
  it.1 ++
    (match alookup hexMapping currentHex with
     | some newColor =>
       if isValidHexColor newColor then
         groupD it.2.1 1 ++ upper newColor ++ groupD it.2.1 3
       else
         -- HEX → scheme: extract the namespace prefix from the opening
         -- (`strings.Index(opening, "srgbClr")`, slice `opening[1:idx]`)
         let opening := groupD it.2.1 1
         let pfxEnd := (firstIdx opening (str "srgbClr")).getD 0
         let pfx := if pfxEnd > 0 then (opening.take pfxEnd).drop 1 else []
         str "<" ++ pfx ++ str "schemeClr val=\"" ++ newColor ++ str "\""
     | none => it.2.2)

/-- Embeds `ReplaceSrgbColors` from processor.go. -/
def ReplaceSrgbColors (xmlContent : Str) (colorMapping : List (Str × Str)) :
    Except Str Str :=
  if colorMapping = [] then .ok xmlContent
  else
    let hexMapping := buildHexMapping colorMapping
    if hexMapping = [] then .ok xmlContent
    else
      let scanned := reScan patSrgb xmlContent
      if scanned.1 = [] then .ok xmlContent
      else .ok ((scanned.1.map (srgbItem hexMapping)).flatten ++ scanned.2)

/-- Builds the scheme→hex submapping of `ReplaceSchemeColorsWithSrgb`
(hex targets uppercased). -/
def buildSchemeToHex (colorMapping : List (Str × Str)) : List (Str × Str) :=
  colorMapping.foldl
    (fun acc p =>
      if ValidSchemeColors p.1 && isValidHexColor p.2 then acc ++ [(p.1, upper p.2)]
      else acc) []

/-- Builds the scheme→scheme submapping of `ReplaceSchemeColorsWithSrgb`. -/
def buildSchemeToScheme (colorMapping : List (Str × Str)) : List (Str × Str) :=
  colorMapping.foldl
    (fun acc p =>
      if ValidSchemeColors p.1 && ¬ isValidHexColor p.2 then acc ++ [p]
      else acc) []

/-- Per-match rewrite of the slow path of `ReplaceSchemeColorsWithSrgb`.
Mirrors the Go code's unpacking of the two alternatives: for the
self-closing alternative (group 1 matched) the pieces are groups 1–6, for
the container alternative groups 7–13; `closing` is the contiguous span
from group 5 (resp. 11) to group 6 (resp. 12). -/
def fullItem (s2h s2s : List (Str × Str)) (it : ScanItem) : Str :=
  let g := it.2.1
  let selfClosing := (getGroup g 1).isSome
  let pfx := if selfClosing then groupD g 1 else groupD g 7
  let valOpening := if selfClosing then groupD g 3 else groupD g 9
  let currentColor := if selfClosing then groupD g 4 else groupD g 10
  let closing := if selfClosing then groupD g 5 ++ groupD g 6
                 else groupD g 11 ++ groupD g 12
  let restOfElement := if selfClosing then [] else groupD g 13
  it.1 ++
    (match alookup s2h currentColor with
     | some hexColor =>
       pfx ++ str "srgbClr" ++ str " val=\"" ++ hexColor ++ str "\"/>"
     | none =>
       match alookup s2s currentColor with
       | some newScheme =>
         pfx ++ str "schemeClr" ++ valOpening ++ newScheme ++ closing ++
           (if selfClosing then [] else restOfElement)
       | none => it.2.2)

/-- Embeds `ReplaceSchemeColorsWithSrgb` from processor.go (including the
fast-path delegation to `ReplaceSchemeColors` when no scheme→hex pair is
present). -/
def ReplaceSchemeColorsWithSrgb (xmlContent : Str) (colorMapping : List (Str × Str)) :
    Except Str Str :=
  if colorMapping = [] then .ok xmlContent
  else
    let s2h := buildSchemeToHex colorMapping
    let s2s := buildSchemeToScheme colorMapping
    if s2h = [] then ReplaceSchemeColors xmlContent s2s
    else
      let scanned := reScan patFull xmlContent
      if scanned.1 = [] then .ok xmlContent
      else .ok ((scanned.1.map (fullItem s2h s2s)).flatten ++ scanned.2)

/-- The fixed-order composition applied by `ProcessPPTX` to each eligible
part: the scheme-aware pass, then the hex-aware pass. -/
def rewritePipeline (content : Str) (colorMapping : List (Str × Str)) :
    Except Str Str :=
  match ReplaceSchemeColorsWithSrgb content colorMapping with
  | .error e => .error e
  | .ok afterScheme => ReplaceSrgbColors afterScheme colorMapping

/-! ### pptx.go: relationship resolution, theme filter, scope, pipeline -/

/-- Embeds `getSlideTheme` from pptx.go.  The only file-system access the
Go function performs is reading the slide's companion `.rels` descriptor
and selecting its `slideLayout` relationship `Target`; that lookup result
is passed in here as `slideLayoutTarget` (`none` when the descriptor is
missing, unreadable or has no such relationship — all the Go error paths
return `""`). -/
def getSlideTheme (slideLayoutTarget : Option Str)
    (layoutToMaster masterToTheme : List (Str × Str)) : Str :=
  match slideLayoutTarget with
  | none => []
  | some layoutTarget =>
    let layoutName := baseName layoutTarget
    match alookup layoutToMaster layoutName with
    | none => []
    | some masterName =>
      match alookup masterToTheme masterName with
      | none => []
      | some themeName => themeName

/-- Normalizes one theme-filter entry (ensure a `.xml` suffix), embedding
the loop at the top of `shouldProcessFile`. -/
def normalizeThemeEntry (theme : Str) : Str :=
  if hasSuf (str ".xml") theme then theme else theme ++ str ".xml"

/-- Embeds `shouldProcessFile` from pptx.go.  `relPath` is the
slash-normalized path of the part relative to the archive root (the Go
function computes it with `filepath.Rel`; an error there returns `true`,
a path-arithmetic case that cannot arise for paths inside the archive).
`slideLayoutTarget` abstracts the slide's relationship descriptor exactly
as in `getSlideTheme`. -/
def shouldProcessFile (relPath : Str) (slideLayoutTarget : Option Str)
    (themeFilter : List Str)
    (layoutToMaster masterToTheme : List (Str × Str)) : Bool :=
  if themeFilter = [] then true
  else
    let themeFiles := themeFilter.map normalizeThemeEntry
    -- each Go `if` block either returns (`some b`) or falls through (`none`)
    let slideOutcome : Option Bool :=
      if hasPre (str "ppt/slides/slide") relPath then
        let theme := getSlideTheme slideLayoutTarget layoutToMaster masterToTheme
        if theme ≠ [] then some (themeFiles.contains theme) else none
      else none
    match slideOutcome with
    | some b => b
    | none =>
      let layoutOutcome : Option Bool :=
        if hasPre (str "ppt/slideLayouts/slideLayout") relPath then
          match alookup layoutToMaster (baseName relPath) with
          | some masterName =>
            match alookup masterToTheme masterName with
            | some themeName => some (themeFiles.contains themeName)
            | none => none
          | none => none
        else none
      match layoutOutcome with
      | some b => b
      | none =>
        let masterOutcome : Option Bool :=
          if hasPre (str "ppt/slideMasters/slideMaster") relPath then
            match alookup masterToTheme (baseName relPath) with
            | some themeName => some (themeFiles.contains themeName)
            | none => none
          else none
        match masterOutcome with
        | some b => b
        | none => true

/-- Theme names actually available, with and without the `.xml` suffix:
embeds the `availableThemes` set of `validateThemeFilter`. -/
def availableThemes (masterToTheme : List (Str × Str)) : List Str :=
  masterToTheme.foldl
    (fun acc p => addUnique (addUnique acc (trimSuf p.2 (str ".xml"))) p.2) []

/-- The `notFound` collection of `validateThemeFilter` (filter order). -/
def themesNotFound (themeFilter : List Str) (masterToTheme : List (Str × Str)) :
    List Str :=
  let avail := availableThemes masterToTheme
  themeFilter.filter
    (fun theme =>
      ¬ (avail.contains theme || avail.contains (trimSuf theme (str ".xml"))))

/-- Sorted list of available theme base names: embeds `uniqueThemes` plus
the bubble sort of `validateThemeFilter` (any comparison sort computes
the same sorted arrangement). -/
def sortedAvailableBases (masterToTheme : List (Str × Str)) : List Str :=
  sortStrs (masterToTheme.foldl
    (fun acc p => addUnique acc (trimSuf p.2 (str ".xml"))) [])

/-- Error text of `validateThemeFilter`. -/
def themeErrMsg (notFound available : List Str) : Str :=
  str "theme(s) not found: " ++ joinSep (str ", ") notFound ++
  str "\nAvailable themes: " ++ joinSep (str ", ") available

/-- Embeds `validateThemeFilter` from pptx.go (`none` = nil error). -/
def validateThemeFilter (themeFilter : List Str)
    (masterToTheme : List (Str × Str)) : Option Str :=
  if themeFilter = [] then none
  else
    let notFound := themesNotFound themeFilter masterToTheme
    if notFound = [] then none
    else some (themeErrMsg notFound (sortedAvailableBases masterToTheme))

/-- Embeds `getXMLPatterns` from pptx.go. -/
def getXMLPatterns (scope : Str) : List Str :=
  let contentPatterns :=
    [str "ppt/slides/", str "ppt/charts/", str "ppt/diagrams/", str "ppt/notesSlides/"]
  let masterPatterns :=
    [str "ppt/slideMasters/", str "ppt/slideLayouts/",
     str "ppt/notesMasters/", str "ppt/handoutMasters/"]
  if scope = str "content" then contentPatterns
  else if scope = str "master" then masterPatterns
  else contentPatterns ++ masterPatterns

/-- One XML part of the extracted archive, as seen by the processing walk
of `ProcessPPTX`: its archive-relative slash path, its byte content, and
the `slideLayout` relationship target from its companion `.rels`
descriptor (the one piece of relationship data `shouldProcessFile` reads
per slide part; `none` for parts without one). -/
structure PartFile where
  path : Str
  content : Str
  layoutRel : Option Str

/-- Eligibility of one part in the processing walk of `ProcessPPTX`:
an `.xml` extension, a path under one of the scope patterns, and the
theme gate `shouldProcessFile`. -/
def partEligible (xmlPatterns : List Str) (themeFilter : List Str)
    (layoutToMaster masterToTheme : List (Str × Str)) (p : PartFile) : Bool :=
  hasSuf (str ".xml") p.path &&
  xmlPatterns.any (fun pat => hasPre pat p.path) &&
  shouldProcessFile p.path p.layoutRel themeFilter layoutToMaster masterToTheme

/-- The processing walk of `ProcessPPTX` (pptx.go lines 410–464) over the
extracted parts: every eligible part is rewritten by the two passes in
fixed order and written back, and `filesProcessed` is incremented for it;
ineligible parts are left untouched.  Returns the final count and the
resulting parts.  (The read/rewrite/write error paths of the Go walk
skip a part without failing; the embedded rewriters never error, so
those paths are unreachable.) -/
def processWalk (parts : List PartFile) (colorMapping : List (Str × Str))
    (xmlPatterns : List Str) (themeFilter : List Str)
    (layoutToMaster masterToTheme : List (Str × Str)) : Nat × List PartFile :=
  match parts with
  | [] => (0, [])
  | p :: rest =>
    let tailRes := processWalk rest colorMapping xmlPatterns themeFilter
      layoutToMaster masterToTheme
    if partEligible xmlPatterns themeFilter layoutToMaster masterToTheme p then
      let newContent :=
        match rewritePipeline p.content colorMapping with
        | .ok c => c
        | .error _ => p.content
      (tailRes.1 + 1, { p with content := newContent } :: tailRes.2)
    else
      (tailRes.1, p :: tailRes.2)

/-- Number of parts whose bytes actually changed — this is the
spec-side notion of `C5` ("the number of parts actually modified"),
defined here from the claim's words for comparison with the count the
code computes. -/
def modifiedCount (parts : List PartFile) (colorMapping : List (Str × Str))
    (xmlPatterns : List Str) (themeFilter : List Str)
    (layoutToMaster masterToTheme : List (Str × Str)) : Nat :=
  (parts.filter
    (fun p =>
      partEligible xmlPatterns themeFilter layoutToMaster masterToTheme p &&
      (match rewritePipeline p.content colorMapping with
       | .ok c => decide (c ≠ p.content)
       | .error _ => false))).length

/-! ### Slide-range parsing and slide-number validation (part_001) -/

/-- Processes one comma-separated entry of a slide-range string,
accumulating selected slide numbers into `slides` (a Go `map[int]bool`,
embedded as an insertion-ordered duplicate-free list). -/
def slideRangeStep (slides : List Int) (part0 : Str) : Except Str (List Int) :=
  let part := trimSpace part0
  if containsChar part '-' then
    -- the Go code checks `len(rangeParts) != 2`; matching on the
    -- two-element shape of the split is the same check
    match splitOnChar '-' part with
    | [sp0, sp1] =>
      match atoi (trimSpace sp0) with
      | .error _ =>
        .error (str "invalid slide number '" ++ sp0 ++ str "'")
      | .ok start =>
        match atoi (trimSpace sp1) with
        | .error _ =>
          .error (str "invalid slide number '" ++ sp1 ++ str "'")
        | .ok stop =>
          if start < 1 then
            .error (str "invalid slide number " ++ intToStr start ++ str " (must be ≥ 1)")
          else if start > stop then
            .error (str "invalid range " ++ intToStr start ++ str "-" ++ intToStr stop ++
              str " (start > end)")
          else
            .ok (List.foldl (fun (acc : List Int) (i : Nat) =>
              let n := start + (i : Int);
              if acc.contains n then acc else acc ++ [n])
              slides (List.range (stop + 1 - start).toNat))
    | _ =>
      .error (str "invalid range format '" ++ part ++ str "' (expected '1-5')")
  else
    match atoi part with
    | .error _ => .error (str "invalid slide number '" ++ part ++ str "'")
    | .ok slideNum =>
      if slideNum < 1 then
        .error (str "invalid slide number " ++ intToStr slideNum ++ str " (must be ≥ 1)")
      else if slides.contains slideNum then .ok slides
      else .ok (slides ++ [slideNum])

/-- The entry loop of `ParseSlideRange`. -/
def slideRangeLoop (parts : List Str) (slides : List Int) :
    Except Str (List Int) :=
  match parts with
  | [] => .ok slides
  | p :: rest =>
    match slideRangeStep slides p with
    | .ok s => slideRangeLoop rest s
    | .error e => .error e

/-- Insertion into a `≤`-sorted list of integers. -/
def sortedInsertInt (x : Int) : List Int → List Int
  | [] => [x]
  | y :: ys => if x ≤ y then x :: y :: ys else y :: sortedInsertInt x ys

/-- Insertion sort on integers (embeds `sort.Ints` on the key set; the
keys are distinct, so any comparison sort yields the same list). -/
def sortInts : List Int → List Int
  | [] => []
  | x :: xs => sortedInsertInt x (sortInts xs)

/-- Embeds `ParseSlideRange`: `""` parses to the empty selection with no
error; otherwise the comma-separated entries are parsed one by one, the
selected set is collected, and the result is the sorted, deduplicated
sequence. -/
def ParseSlideRange (flag : Str) : Except Str (List Int) :=
  if flag = [] then .ok []
  else
    match slideRangeLoop (splitOnChar ',' flag) [] with
    | .error e => .error e
    | .ok slides =>
      if slides = [] then .error (str "no slides specified")
      else .ok (sortInts slides)

/-- Embeds `ValidateSlideNumbers` from part_001, with the archive I/O of
`BuildSlideMapping` abstracted to its result size: `totalSlides` is the
number of entries of the slide mapping (`len(mapping)`).  Returns `none`
for a nil error. -/
def ValidateSlideNumbers (totalSlides : Int) (slideNums : List Int) :
    Option Str :=
  if slideNums = [] then none
  else
    let invalid := slideNums.filter (fun n => n > totalSlides)
    if h : invalid = [] then none
    else if h2 : invalid.length = 1 then
      some (str "slide " ++ intToStr (invalid.get ⟨0, by omega⟩) ++
        str " does not exist (presentation has " ++ intToStr totalSlides ++ str " slides)")
    else
      some (str "slides " ++ joinSep (str ", ") (invalid.map intToStr) ++
        str " do not exist (presentation has " ++ intToStr totalSlides ++ str " slides)")

/-! ### Canonical color-reference element shapes

The rewriting claims quantify over documents assembled from the element
shapes below — a scheme-color reference, either self-closing or carrying
a fixed nested luminance-modifier child, and an RGB (`srgbClr`) color
reference — separated by arbitrary `<`-free filler text.  Each `gps…`
list is the capture-group list the matcher produces for the
corresponding pattern on that shape. -/

/-- A self-closing scheme-color reference `<a:schemeClr val="v"/>`. -/
def elemSch (v : Str) : Str := str "<a:schemeClr val=\"" ++ v ++ str "\"/>"

/-- The opening of a scheme-color reference up to the closing quote of
its `val` attribute (the span `patScheme` consumes). -/
def opnSch (v : Str) : Str := str "<a:schemeClr val=\"" ++ v ++ str "\""

/-- The nested modifier child used by the container-element shape (the
shape the repository's own tests exercise). -/
def childrenX : Str := str "<a:lumMod val=\"75000\"/>"

/-- Everything of a container scheme-color element after the closing
quote of its `val` attribute: `>`, the child, and the closing tag. -/
def innerCont : Str := str ">" ++ childrenX ++ str "</a:schemeClr>"

/-- A container scheme-color reference with a nested modifier child:
`<a:schemeClr val="v"><a:lumMod val="75000"/></a:schemeClr>`. -/
def elemCont (v : Str) : Str := opnSch v ++ innerCont

/-- A self-closing RGB color reference `<a:srgbClr val="v"/>`. -/
def elemSrgb (v : Str) : Str := str "<a:srgbClr val=\"" ++ v ++ str "\"/>"

/-- The opening of an RGB color reference up to the closing quote of its
`val` attribute (the span `patSrgb` consumes). -/
def opnSrgb (v : Str) : Str := str "<a:srgbClr val=\"" ++ v ++ str "\""

/-- Capture groups of `patScheme` on a scheme-color element. -/
def gpsSch (v : Str) : Groups := [(3, str "\""), (2, v), (1, str "<a:schemeClr val=\"")]

/-- Capture groups of `patSrgb` on an RGB color element. -/
def gpsSrgb (v : Str) : Groups := [(3, str "\""), (2, v), (1, str "<a:srgbClr val=\"")]

/-- Capture groups of `patFull` (first alternative) on a self-closing
scheme-color element. -/
def gpsFullSelf (v : Str) : Groups :=
  [(6, str "/>"), (5, str "\""), (4, v), (3, str " val=\""), (2, str "schemeClr"),
   (1, str "<a:")]

/-- Capture groups of `patFull` (second alternative) on a container
scheme-color element. -/
def gpsFullCont (v : Str) : Groups :=
  [(13, childrenX ++ str "</a:schemeClr>"), (12, str ">"), (11, str "\""), (10, v),
   (9, str " val=\""), (8, str "schemeClr"), (7, str "<a:")]

/-- Prepends a whole string to the gap preceding the first scanned match
(or to the trailing gap). -/
def prependGap (gap : Str) (res : List ScanItem × Str) : List ScanItem × Str :=
  gap.foldr consGap res

/-! ### Generic lemmas about the string utilities -/

theorem hasPre_iff_exists {p s : Str} : hasPre p s = true ↔ ∃ t, s = p ++ t := by
  induction p generalizing s with
  | nil => simp [hasPre]
  | cons a ps ih =>
    cases s with
    | nil => simp [hasPre]
    | cons c cs =>
      simp only [hasPre, Bool.and_eq_true, decide_eq_true_eq, ih, List.cons_append,
        List.cons.injEq]
      constructor
      · rintro ⟨rfl, t, rfl⟩; exact ⟨t, rfl, rfl⟩
      · rintro ⟨t, rfl, rfl⟩; exact ⟨rfl, t, rfl⟩

theorem hasPre_append (p t : Str) : hasPre p (p ++ t) = true :=
  hasPre_iff_exists.mpr ⟨t, rfl⟩

/-- The three part-kind prefixes of `shouldProcessFile` are mutually
exclusive. -/
theorem partPre_excl {r : Str} :
    (hasPre (str "ppt/slides/slide") r = true →
      hasPre (str "ppt/slideLayouts/slideLayout") r = false ∧
      hasPre (str "ppt/slideMasters/slideMaster") r = false) ∧
    (hasPre (str "ppt/slideLayouts/slideLayout") r = true →
      hasPre (str "ppt/slides/slide") r = false ∧
      hasPre (str "ppt/slideMasters/slideMaster") r = false) ∧
    (hasPre (str "ppt/slideMasters/slideMaster") r = true →
      hasPre (str "ppt/slides/slide") r = false ∧
      hasPre (str "ppt/slideLayouts/slideLayout") r = false) := by
  refine ⟨?_, ?_, ?_⟩ <;> intro h <;>
    obtain ⟨t, rfl⟩ := hasPre_iff_exists.mp h <;> exact ⟨rfl, rfl⟩

/-! ### Claim C4 — theme-filter treatment of unresolvable parts -/

/-- Claim C4, counterexample: the claim asserts that with a non-empty
theme filter a slide part whose theme cannot be resolved is
theme-filter-excluded (`shouldProcessFile` returns `false`); but on a
slide part with no resolvable relationship chain (here: no `slideLayout`
relationship at all, empty layout→master and master→theme maps, so
`getSlideTheme` yields the empty "unknown" theme), `shouldProcessFile`
falls through every branch and returns `true`. -/
theorem C4_counterexample :
    getSlideTheme none [] [] = [] ∧
    shouldProcessFile (str "ppt/slides/slide1.xml") none [str "theme1"] [] [] = true :=
  ⟨rfl, rfl⟩

/-- Claim C4, amended: when a non-empty theme filter is active, a slide,
layout, or master part whose theme cannot be resolved through the
relationship chain is theme-filter-INCLUDED (`shouldProcessFile` returns
`true`, not `false`), and every part of any other kind (chart, diagram,
notes) is always theme-filter-inclusive. -/
theorem C4_amended (relPath : Str) (lr : Option Str) (tf : List Str)
    (l2m m2t : List (Str × Str)) (htf : tf ≠ []) :
    (hasPre (str "ppt/slides/slide") relPath = true →
      getSlideTheme lr l2m m2t = [] →
      shouldProcessFile relPath lr tf l2m m2t = true) ∧
    (hasPre (str "ppt/slideLayouts/slideLayout") relPath = true →
      (alookup l2m (baseName relPath)).bind (fun mn => alookup m2t mn) = none →
      shouldProcessFile relPath lr tf l2m m2t = true) ∧
    (hasPre (str "ppt/slideMasters/slideMaster") relPath = true →
      alookup m2t (baseName relPath) = none →
      shouldProcessFile relPath lr tf l2m m2t = true) ∧
    (hasPre (str "ppt/slides/slide") relPath = false →
      hasPre (str "ppt/slideLayouts/slideLayout") relPath = false →
      hasPre (str "ppt/slideMasters/slideMaster") relPath = false →
      shouldProcessFile relPath lr tf l2m m2t = true) := by
  refine ⟨?_, ?_, ?_, ?_⟩
  · intro hs hth
    obtain ⟨hL, hM⟩ := partPre_excl.1 hs
    simp [shouldProcessFile, htf, hs, hth, hL, hM]
  · intro hl hchain
    obtain ⟨hS, hM⟩ := partPre_excl.2.1 hl
    cases hmn : alookup l2m (baseName relPath) with
    | none => simp [shouldProcessFile, htf, hl, hS, hM, hmn]
    | some mn =>
      rw [hmn] at hchain
      simp only [Option.some_bind] at hchain
      simp [shouldProcessFile, htf, hl, hS, hM, hmn, hchain]
  · intro hm hnone
    obtain ⟨hS, hL⟩ := partPre_excl.2.2 hm
    simp [shouldProcessFile, htf, hm, hS, hL, hnone]
  · intro hS hL hM
    simp [shouldProcessFile, htf, hS, hL, hM]

/-- Witness for C4_amended: a chart part with a non-empty theme filter
and empty relationship maps is theme-filter-inclusive. -/
theorem C4_amended_witness :
    shouldProcessFile (str "ppt/charts/chart1.xml") none [str "theme1"] [] [] = true :=
  (C4_amended (str "ppt/charts/chart1.xml") none [str "theme1"] [] []
    (by decide)).2.2.2 (by decide) (by decide) (by decide)

/-! ### Claim C5 — what the returned count actually counts -/

/-- Claim C5, counterexample: the claim asserts the count returned by
`ProcessPPTX` equals the number of parts whose bytes actually changed;
but on an archive with one eligible slide part containing no color
reference at all (so the two passes leave it byte-identical), the
processing walk still counts it: the returned count is 1 while the
number of modified parts is 0. -/
theorem C5_counterexample :
    (processWalk [⟨str "ppt/slides/slide1.xml", str "<x/>", none⟩]
      [(str "accent1", str "accent2")] (getXMLPatterns (str "all")) [] [] []).1 = 1 ∧
    modifiedCount [⟨str "ppt/slides/slide1.xml", str "<x/>", none⟩]
      [(str "accent1", str "accent2")] (getXMLPatterns (str "all")) [] [] [] = 0 :=
  ⟨rfl, rfl⟩

/-- Claim C5, amended: the count returned by `ProcessPPTX` equals the
number of *eligible* parts (XML extension, scope pattern, theme gate) —
each of which is rewritten and written back — regardless of whether the
rewrite changed their bytes. -/
theorem C5_amended (parts : List PartFile) (m : List (Str × Str))
    (xp tf : List Str) (l2m m2t : List (Str × Str)) :
    (processWalk parts m xp tf l2m m2t).1 =
      (parts.filter (partEligible xp tf l2m m2t)).length := by
  induction parts with
  | nil => rfl
  | cons p rest ih =>
    by_cases h : partEligible xp tf l2m m2t p = true
    · simp [processWalk, h, List.filter_cons, ih]
    · simp [processWalk, List.filter_cons, ih, h]

/-! ### Claim C7 — identity on empty mapping or no matches -/

/-- Claim C7: each rewriter, applied with an empty mapping table, or to
input in which its pattern finds no match (which covers malformed and
non-XML bytes), returns the input unchanged and reports no error. -/
theorem C7_identity (xml : Str) (m : List (Str × Str)) :
    (ReplaceSchemeColors xml [] = .ok xml) ∧
    (ReplaceSrgbColors xml [] = .ok xml) ∧
    (ReplaceSchemeColorsWithSrgb xml [] = .ok xml) ∧
    ((reScan patScheme xml).1 = [] → ReplaceSchemeColors xml m = .ok xml) ∧
    ((reScan patSrgb xml).1 = [] → ReplaceSrgbColors xml m = .ok xml) ∧
    ((reScan patScheme xml).1 = [] → (reScan patFull xml).1 = [] →
      ReplaceSchemeColorsWithSrgb xml m = .ok xml) := by
  refine ⟨rfl, rfl, rfl, ?_, ?_, ?_⟩
  · intro hscan
    by_cases hm : m = []
    · simp [ReplaceSchemeColors, hm]
    · simp [ReplaceSchemeColors, hm, hscan]
  · intro hscan
    by_cases hm : m = []
    · simp [ReplaceSrgbColors, hm]
    · by_cases hh : buildHexMapping m = []
      · simp [ReplaceSrgbColors, hm, hh]
      · simp [ReplaceSrgbColors, hm, hh, hscan]
  · intro hscanS hscanF
    by_cases hm : m = []
    · simp [ReplaceSchemeColorsWithSrgb, hm]
    · by_cases hs2h : buildSchemeToHex m = []
      · by_cases hs2s : buildSchemeToScheme m = []
        · simp [ReplaceSchemeColorsWithSrgb, hm, hs2h, ReplaceSchemeColors, hs2s]
        · simp [ReplaceSchemeColorsWithSrgb, hm, hs2h, ReplaceSchemeColors, hs2s,
            hscanS]
      · simp [ReplaceSchemeColorsWithSrgb, hm, hs2h, hscanF]

/-- Witness for C7_identity: non-XML bytes with a non-empty mapping pass
through all three rewriters unchanged. -/
theorem C7_identity_witness :
    (reScan patScheme (str "plain text, no elements")).1 = [] ∧
    (reScan patSrgb (str "plain text, no elements")).1 = [] ∧
    (reScan patFull (str "plain text, no elements")).1 = [] ∧
    ReplaceSchemeColors (str "plain text, no elements")
      [(str "accent1", str "accent2")] = .ok (str "plain text, no elements") ∧
    ReplaceSrgbColors (str "plain text, no elements")
      [(str "AABBCC", str "accent2")] = .ok (str "plain text, no elements") ∧
    ReplaceSchemeColorsWithSrgb (str "plain text, no elements")
      [(str "accent1", str "AABBCC")] = .ok (str "plain text, no elements") :=
  ⟨rfl, rfl, rfl,
   (C7_identity (str "plain text, no elements") [(str "accent1", str "accent2")]).2.2.2.1 rfl,
   (C7_identity (str "plain text, no elements") [(str "AABBCC", str "accent2")]).2.2.2.2.1 rfl,
   (C7_identity (str "plain text, no elements") [(str "accent1", str "AABBCC")]).2.2.2.2.2 rfl rfl⟩

/-! ### Substring lemmas for error-message claims -/

theorem containsSub_nil_needle (hay : Str) : containsSub [] hay = true := by
  cases hay <;> simp [containsSub, hasPre]

theorem containsSub_parts (x pre suf : Str) :
    containsSub x (pre ++ x ++ suf) = true := by
  induction pre with
  | nil =>
    cases hx : x with
    | nil => exact containsSub_nil_needle suf
    | cons c cs =>
      simp only [List.nil_append, List.cons_append, containsSub, Bool.or_eq_true]
      exact Or.inl (by rw [← hx, ← List.cons_append, ← hx]; exact hasPre_append x suf)
  | cons c pre ih =>
    simp only [List.cons_append, containsSub, Bool.or_eq_true]
    exact Or.inr ih

theorem containsSub_of_split {x hay : Str} (pre suf : Str)
    (h : hay = pre ++ x ++ suf) : containsSub x hay = true := by
  rw [h]; exact containsSub_parts x pre suf

theorem joinSep_mem_split {x : Str} {l : List Str} (sep : Str) (hx : x ∈ l) :
    ∃ pre suf, joinSep sep l = pre ++ x ++ suf := by
  induction l with
  | nil => cases hx
  | cons y ys ih =>
    rcases List.mem_cons.mp hx with rfl | hmem
    · cases ys with
      | nil => exact ⟨[], [], by simp [joinSep]⟩
      | cons z zs => exact ⟨[], sep ++ joinSep sep (z :: zs), by simp [joinSep]⟩
    · cases ys with
      | nil => cases hmem
      | cons z zs =>
        obtain ⟨pre, suf, hps⟩ := ih hmem
        exact ⟨y ++ sep ++ pre, suf, by simp [joinSep, hps, List.append_assoc]⟩

/-! ### Claim C8 — out-of-range slide validation -/

/-- Claim C8: `ValidateSlideNumbers` fails exactly when some requested
slide number exceeds the slide count, and on failure its single error
message names every invalid number. -/
theorem C8_outOfRange (N : Int) (nums : List Int) :
    ((ValidateSlideNumbers N nums).isSome ↔ ∃ n ∈ nums, n > N) ∧
    (∀ msg, ValidateSlideNumbers N nums = some msg →
      ∀ n ∈ nums, n > N → containsSub (intToStr n) msg = true) := by
  by_cases hn : nums = []
  · subst hn
    simp [ValidateSlideNumbers]
  · have hinv : ∀ n, n ∈ nums.filter (fun n => n > N) ↔ n ∈ nums ∧ n > N := by
      intro n
      simp [List.mem_filter]
    constructor
    · by_cases h : nums.filter (fun n => n > N) = []
      · have : ∀ n ∈ nums, ¬ n > N := by
          intro n hmem
          simpa using (List.filter_eq_nil_iff.mp h) n hmem
        simp only [ValidateSlideNumbers, if_neg hn, dif_pos h, Option.isSome_none,
          Bool.false_eq_true, false_iff]
        push_neg at this ⊢
        exact this
      · obtain ⟨a, ha⟩ := List.exists_mem_of_ne_nil _ h
        have ⟨ha1, ha2⟩ := (hinv a).mp ha
        constructor
        · intro _; exact ⟨a, ha1, ha2⟩
        · intro _
          simp only [ValidateSlideNumbers, if_neg hn, dif_neg h]
          split <;> simp
    · intro msg hmsg n hmem hgt
      have hnin : n ∈ nums.filter (fun n => n > N) := (hinv n).mpr ⟨hmem, hgt⟩
      by_cases h : nums.filter (fun n => n > N) = []
      · rw [h] at hnin; cases hnin
      · simp only [ValidateSlideNumbers, if_neg hn, dif_neg h] at hmsg
        by_cases h2 : (nums.filter (fun n => n > N)).length = 1
        · rw [dif_pos h2] at hmsg
          obtain ⟨a, hae⟩ := List.length_eq_one.mp h2
          have hna : n = a := by
            rw [hae] at hnin
            simpa using hnin
          obtain rfl := (Option.some.inj hmsg).symm
          rw [hna]
          have hget : (nums.filter (fun n => n > N)).get
              ⟨0, by rw [h2]; omega⟩ = a := by
            simp [hae]
          rw [hget]
          exact containsSub_of_split (str "slide ")
            (str " does not exist (presentation has " ++ intToStr N ++ str " slides)")
            (by simp [List.append_assoc])
        · rw [dif_neg h2] at hmsg
          obtain rfl := (Option.some.inj hmsg).symm
          have hmapped : intToStr n ∈ (nums.filter (fun n => n > N)).map intToStr :=
            List.mem_map_of_mem intToStr hnin
          obtain ⟨pre, suf, hps⟩ := joinSep_mem_split (str ", ") hmapped
          rw [hps]
          exact containsSub_of_split (str "slides " ++ pre)
            (suf ++ (str " do not exist (presentation has " ++ intToStr N ++
              str " slides)"))
            (by simp [List.append_assoc])

/-- Witness for C8_outOfRange: a 12-slide presentation with the request
{1, 15, 99} fails, and the single message names both 15 and 99. -/
theorem C8_outOfRange_witness :
    ((1 : Int) > 12 ∨ (15 : Int) > 12) ∧
    containsSub (intToStr 15)
      (str "slides 15, 99 do not exist (presentation has 12 slides)") = true ∧
    containsSub (intToStr 99)
      (str "slides 15, 99 do not exist (presentation has 12 slides)") = true :=
  ⟨Or.inr (by norm_num),
   (C8_outOfRange 12 [1, 15, 99]).2 _ rfl 15 (by decide) (by decide),
   (C8_outOfRange 12 [1, 15, 99]).2 _ rfl 99 (by decide) (by decide)⟩

/-! ### Claim C9 — theme-filter validation -/

/-- A user-supplied theme name `t` resolves to the theme file `v` of a
master→theme edge exactly when they agree with or without the `.xml`
extension on either side — this is precisely the membership test
`validateThemeFilter` performs against its `availableThemes` set. -/
def matchesTheme (t v : Str) : Bool :=
  t = v || t = trimSuf v (str ".xml") ||
  trimSuf t (str ".xml") = v ||
  trimSuf t (str ".xml") = trimSuf v (str ".xml")

theorem addUnique_mem {acc : List Str} {x b : Str} :
    b ∈ addUnique acc x ↔ b ∈ acc ∨ b = x := by
  unfold addUnique
  by_cases h : acc.contains x
  · rw [if_pos h]
    constructor
    · exact Or.inl
    · rintro (hb | rfl)
      · exact hb
      · exact List.elem_iff.mp h
  · rw [if_neg h]
    simp

theorem availableThemes_mem (m : List (Str × Str)) (b : Str) :
    b ∈ availableThemes m ↔ ∃ p ∈ m, b = p.2 ∨ b = trimSuf p.2 (str ".xml") := by
  have key : ∀ (l : List (Str × Str)) (acc : List Str),
      b ∈ l.foldl (fun acc p =>
        addUnique (addUnique acc (trimSuf p.2 (str ".xml"))) p.2) acc ↔
      b ∈ acc ∨ ∃ p ∈ l, b = p.2 ∨ b = trimSuf p.2 (str ".xml") := by
    intro l
    induction l with
    | nil => simp
    | cons q qs ih =>
      intro acc
      rw [List.foldl_cons, ih, addUnique_mem, addUnique_mem]
      simp only [List.mem_cons]
      constructor
      · rintro (((hb | hb) | hb) | ⟨p, hp, hor⟩)
        · exact Or.inl hb
        · exact Or.inr ⟨q, Or.inl rfl, Or.inr hb⟩
        · exact Or.inr ⟨q, Or.inl rfl, Or.inl hb⟩
        · exact Or.inr ⟨p, Or.inr hp, hor⟩
      · rintro (hb | ⟨p, hpq | hp, hor⟩)
        · exact Or.inl (Or.inl (Or.inl hb))
        · subst hpq
          rcases hor with h | h
          · exact Or.inl (Or.inr h)
          · exact Or.inl (Or.inl (Or.inr h))
        · exact Or.inr ⟨p, hp, hor⟩
  exact (key m []).trans (by simp)

/-- The membership test of `validateThemeFilter` coincides with
`matchesTheme` against the edge values. -/
theorem resolve_iff (m : List (Str × Str)) (t : Str) :
    ((availableThemes m).contains t ||
      (availableThemes m).contains (trimSuf t (str ".xml"))) = true ↔
    ∃ p ∈ m, matchesTheme t p.2 = true := by
  rw [Bool.or_eq_true, List.elem_iff, List.elem_iff,
    availableThemes_mem, availableThemes_mem]
  constructor
  · rintro (⟨p, hp, hor⟩ | ⟨p, hp, hor⟩) <;>
      exact ⟨p, hp, by simp [matchesTheme]; tauto⟩
  · rintro ⟨p, hp, hm⟩
    simp only [matchesTheme, Bool.or_eq_true, decide_eq_true_eq] at hm
    rcases hm with ((h | h) | h) | h
    · exact Or.inl ⟨p, hp, Or.inl h⟩
    · exact Or.inl ⟨p, hp, Or.inr h⟩
    · exact Or.inr ⟨p, hp, Or.inl h⟩
    · exact Or.inr ⟨p, hp, Or.inr h⟩

theorem strLt_asymm {a b : Str} (h : strLt a b = true) : strLt b a = false := by
  induction a generalizing b with
  | nil =>
    cases b with
    | nil => simp [strLt] at h
    | cons c cs => simp [strLt]
  | cons x xs ih =>
    cases b with
    | nil => simp [strLt] at h
    | cons y ys =>
      by_cases hxy : x = y
      · subst hxy
        simp only [strLt, if_pos rfl] at h ⊢
        exact ih h
      · simp only [strLt, if_neg hxy, decide_eq_true_eq] at h
        have hne : ¬ y = x := fun hyx => hxy hyx.symm
        simp only [strLt, if_neg hne, decide_eq_false_iff_not]
        exact Char.lt_asymm h

theorem chain_sortedInsert (x : Str) (l : List Str)
    (h : List.Chain' (fun a b => strLt b a = false) l) :
    List.Chain' (fun a b => strLt b a = false) (sortedInsert x l) := by
  induction l with
  | nil => simp [sortedInsert]
  | cons y ys ih =>
    by_cases hxy : strLt x y = true
    · simp only [sortedInsert, if_pos hxy]
      exact List.Chain'.cons (strLt_asymm hxy) h
    · simp only [sortedInsert, if_neg hxy]
      have hyx : strLt x y = false := by
        cases hcase : strLt x y
        · rfl
        · exact absurd hcase hxy
      have hins := ih h.tail
      cases ys with
      | nil =>
        simp only [sortedInsert]
        exact List.chain'_pair.mpr hyx
      | cons z zs =>
        by_cases hxz : strLt x z = true
        · simp only [sortedInsert, if_pos hxz] at hins ⊢
          exact List.chain'_cons.mpr ⟨hyx, hins⟩
        · simp only [sortedInsert, if_neg hxz] at hins ⊢
          exact List.chain'_cons.mpr ⟨List.chain'_cons.mp h |>.1, hins⟩

theorem chain_sortStrs (l : List Str) :
    List.Chain' (fun a b => strLt b a = false) (sortStrs l) := by
  induction l with
  | nil => simp [sortStrs]
  | cons x xs ih => exact chain_sortedInsert x (sortStrs xs) ih

theorem sortedInsert_mem {x b : Str} {l : List Str} :
    b ∈ sortedInsert x l ↔ b = x ∨ b ∈ l := by
  induction l with
  | nil => simp [sortedInsert]
  | cons y ys ih =>
    by_cases hxy : strLt x y = true
    · simp [sortedInsert, hxy]
    · simp [sortedInsert, hxy, ih]
      tauto

theorem sortStrs_mem {b : Str} {l : List Str} : b ∈ sortStrs l ↔ b ∈ l := by
  induction l with
  | nil => simp [sortStrs]
  | cons x xs ih => simp [sortStrs, sortedInsert_mem, ih]

theorem sortedAvailableBases_mem (m : List (Str × Str)) (b : Str) :
    b ∈ sortedAvailableBases m ↔ ∃ p ∈ m, b = trimSuf p.2 (str ".xml") := by
  unfold sortedAvailableBases
  rw [sortStrs_mem]
  have key : ∀ (l : List (Str × Str)) (acc : List Str),
      b ∈ l.foldl (fun acc p => addUnique acc (trimSuf p.2 (str ".xml"))) acc ↔
      b ∈ acc ∨ ∃ p ∈ l, b = trimSuf p.2 (str ".xml") := by
    intro l
    induction l with
    | nil => simp
    | cons q qs ih =>
      intro acc
      rw [List.foldl_cons, ih, addUnique_mem]
      constructor
      · rintro ((hb | rfl) | ⟨p, hp, hor⟩)
        · exact Or.inl hb
        · exact Or.inr ⟨q, by simp⟩
        · exact Or.inr ⟨p, List.mem_cons_of_mem _ hp, hor⟩
      · rintro (hb | ⟨p, hp, hor⟩)
        · exact Or.inl (Or.inl hb)
        · rcases List.mem_cons.mp hp with rfl | hmem
          · exact Or.inl (Or.inr hor)
          · exact Or.inr ⟨p, hmem, hor⟩
  exact (key m []).trans (by simp)

/-- Claim C9: with a non-empty theme filter, `validateThemeFilter`
succeeds exactly when every supplied name (with or without the `.xml`
extension) resolves to some master→theme edge; on failure the error
message names every unresolvable filter entry and carries the list of
available theme base names, sorted and complete. -/
theorem C9_themeValidation (tf : List Str) (m : List (Str × Str)) (htf : tf ≠ []) :
    ((validateThemeFilter tf m = none) ↔
      ∀ t ∈ tf, ∃ p ∈ m, matchesTheme t p.2 = true) ∧
    (∀ msg, validateThemeFilter tf m = some msg →
      (∀ t ∈ tf, (¬ ∃ p ∈ m, matchesTheme t p.2 = true) →
        containsSub t msg = true) ∧
      List.Chain' (fun a b => strLt b a = false) (sortedAvailableBases m) ∧
      (∀ b, b ∈ sortedAvailableBases m ↔
        ∃ p ∈ m, b = trimSuf p.2 (str ".xml"))) := by
  have hnf : ∀ t, t ∈ themesNotFound tf m ↔ t ∈ tf ∧ ¬ ∃ p ∈ m, matchesTheme t p.2 = true := by
    intro t
    unfold themesNotFound
    rw [List.mem_filter]
    constructor
    · rintro ⟨htm, hcond⟩
      refine ⟨htm, fun hex => ?_⟩
      rw [← resolve_iff] at hex
      rw [decide_eq_true_eq] at hcond
      exact hcond hex
    · rintro ⟨htm, hnex⟩
      refine ⟨htm, ?_⟩
      rw [← resolve_iff] at hnex
      simpa using hnex
  constructor
  · constructor
    · intro hok t htm
      by_contra hnex
      have : t ∈ themesNotFound tf m := (hnf t).mpr ⟨htm, hnex⟩
      have hne : themesNotFound tf m ≠ [] := fun he => by rw [he] at this; cases this
      simp [validateThemeFilter, htf, hne] at hok
    · intro hall
      have : themesNotFound tf m = [] := by
        by_contra hne
        obtain ⟨t, ht⟩ := List.exists_mem_of_ne_nil _ hne
        obtain ⟨htm, hnex⟩ := (hnf t).mp ht
        exact hnex (hall t htm)
      simp [validateThemeFilter, htf, this]
  · intro msg hmsg
    have hne : themesNotFound tf m ≠ [] := by
      intro he
      simp [validateThemeFilter, htf, he] at hmsg
    simp only [validateThemeFilter, if_neg htf, if_neg hne] at hmsg
    obtain rfl := (Option.some.inj hmsg).symm
    refine ⟨?_, chain_sortStrs _, sortedAvailableBases_mem m⟩
    intro t htm hnex
    have htin : t ∈ themesNotFound tf m := (hnf t).mpr ⟨htm, hnex⟩
    obtain ⟨pre, suf, hps⟩ := joinSep_mem_split (str ", ") htin
    unfold themeErrMsg
    rw [hps]
    exact containsSub_of_split (str "theme(s) not found: " ++ pre)
      (suf ++ (str "\nAvailable themes: " ++
        joinSep (str ", ") (sortedAvailableBases m)))
      (by simp [List.append_assoc])

/-- Witness for C9_themeValidation: requesting theme9 from an archive
whose masters use theme1/theme2 fails with a message naming theme9. -/
theorem C9_themeValidation_witness :
    containsSub (str "theme9")
      (str "theme(s) not found: theme9\nAvailable themes: theme1, theme2") = true :=
  ((C9_themeValidation [str "theme9"]
      [(str "slideMaster1.xml", str "theme1.xml"), (str "slideMaster2.xml", str "theme2.xml")]
      (by decide)).2 _ rfl).1 (str "theme9") (by decide) (by decide)

/-! ### Claim C6 — mapping parse conflict handling -/

theorem hexDigit_clean {c : Char} (h : isHexDigit c = true) :
    c ≠ ',' ∧ c ≠ ':' ∧ isSpaceChar c = false := by
  refine ⟨fun hc => ?_, fun hc => ?_, ?_⟩
  · subst hc; exact absurd h (by decide)
  · subst hc; exact absurd h (by decide)
  · by_contra hsp
    have hsp' : isSpaceChar c = true := by
      cases hcase : isSpaceChar c
      · exact absurd hcase hsp
      · rfl
    simp only [isSpaceChar, Bool.or_eq_true, decide_eq_true_eq] at hsp'
    rcases hsp' with ((((rfl | rfl) | rfl) | rfl) | rfl) | rfl <;>
      exact absurd h (by decide)

/-- Valid colors contain no separator or whitespace characters and are
nonempty — the facts needed to push them through split/trim unchanged. -/
theorem validColor_clean {s : Str} (h : isValidColor s = true) :
    s ≠ [] ∧ ∀ c ∈ s, c ≠ ',' ∧ c ≠ ':' ∧ isSpaceChar c = false := by
  rcases Bool.or_eq_true _ _ |>.mp h with hs | hh
  · have hmem : s ∈ schemeTokens := List.elem_iff.mp hs
    fin_cases hmem <;> exact ⟨by decide, by decide⟩
  · simp only [isValidHexColor, Bool.and_eq_true, decide_eq_true_eq,
      List.all_eq_true] at hh
    refine ⟨fun he => ?_, fun c hc => hexDigit_clean (hh.2 c hc)⟩
    rw [he] at hh
    simp at hh

theorem trimLeft_eq_self {s : Str} (h : ∀ c ∈ s, isSpaceChar c = false) :
    trimLeft s = s := by
  cases s with
  | nil => rfl
  | cons c cs => simp [trimLeft, h c (List.mem_cons_self c cs)]

theorem trimSpace_eq_self {s : Str} (h : ∀ c ∈ s, isSpaceChar c = false) :
    trimSpace s = s := by
  unfold trimSpace
  rw [trimLeft_eq_self h, trimLeft_eq_self (by simpa using h), List.reverse_reverse]

theorem splitOnChar_no_sep {sep : Char} {s : Str} (h : ∀ c ∈ s, c ≠ sep) :
    splitOnChar sep s = [s] := by
  induction s with
  | nil => rfl
  | cons c cs ih =>
    have hcs : splitOnChar sep cs = [cs] := ih (fun x hx => h x (List.mem_cons_of_mem _ hx))
    simp [splitOnChar, h c (List.mem_cons_self c cs), hcs]

theorem splitOnChar_append {sep : Char} {a b : Str} (h : ∀ c ∈ a, c ≠ sep) :
    splitOnChar sep (a ++ sep :: b) = a :: splitOnChar sep b := by
  induction a with
  | nil => simp [splitOnChar]
  | cons c cs ih =>
    have hcs := ih (fun x hx => h x (List.mem_cons_of_mem _ hx))
    simp [splitOnChar, h c (List.mem_cons_self c cs), hcs]

/-- Unfolds `parsePairStep` on a well-formed `source:target` pair of
valid colors: everything reduces to the conflict check against the table
built so far. -/
theorem parsePairStep_valid (m : List (Str × Str)) (X Y : Str)
    (hX : isValidColor X = true) (hY : isValidColor Y = true) :
    parsePairStep m (X ++ ':' :: Y) =
      (match alookup m X with
       | some t => if t ≠ Y then .error (conflictMsg X t Y) else .ok m
       | none => .ok (m ++ [(X, Y)])) := by
  obtain ⟨hXne, hXcl⟩ := validColor_clean hX
  obtain ⟨hYne, hYcl⟩ := validColor_clean hY
  have hclean : ∀ c ∈ X ++ ':' :: Y, isSpaceChar c = false := by
    intro c hc
    rcases List.mem_append.mp hc with hc | hc
    · exact (hXcl c hc).2.2
    · rcases List.mem_cons.mp hc with rfl | hc
      · decide
      · exact (hYcl c hc).2.2
  have htrim : trimSpace (X ++ ':' :: Y) = X ++ ':' :: Y := trimSpace_eq_self hclean
  have hne : ¬ (X ++ ':' :: Y = []) := by simp
  have hcontains : containsChar (X ++ ':' :: Y) ':' = true := by
    simp [containsChar, List.any_append]
  have hsplit : splitOnChar ':' (X ++ ':' :: Y) = [X, Y] := by
    rw [splitOnChar_append (fun c hc => (hXcl c hc).2.1)]
    rw [splitOnChar_no_sep (fun c hc => (hYcl c hc).2.1)]
  have htrX : trimSpace X = X := trimSpace_eq_self (fun c hc => (hXcl c hc).2.2)
  have htrY : trimSpace Y = Y := trimSpace_eq_self (fun c hc => (hYcl c hc).2.2)
  unfold parsePairStep
  rw [htrim, if_neg hne, if_neg (by simp [hcontains]), hsplit]
  simp only [htrX, htrY, if_neg (by simp [hXne, hYne] : ¬ (X = [] ∨ Y = [])),
    if_neg (by simp [hX] : ¬ (¬ isValidColor X = true)),
    if_neg (by simp [hY] : ¬ (¬ isValidColor Y = true))]

theorem alookup_append_some {m l : List (Str × Str)} {k v : Str}
    (h : alookup m k = some v) : alookup (m ++ l) k = some v := by
  induction m with
  | nil => simp [alookup] at h
  | cons p ps ih =>
    by_cases hk : p.1 = k
    · simpa [alookup, hk] using h
    · rw [List.cons_append]
      simp only [alookup, if_neg hk] at h ⊢
      exact ih h

theorem alookup_append_none {m l : List (Str × Str)} {k : Str}
    (h : alookup m k = none) : alookup (m ++ l) k = alookup l k := by
  induction m with
  | nil => simp
  | cons p ps ih =>
    by_cases hk : p.1 = k
    · simp [alookup, hk] at h
    · rw [List.cons_append]
      simp only [alookup, if_neg hk] at h ⊢
      exact ih h

/-- Every pair string `q` behaves in one of three state-independent ways
in the table-building loop: absorbed as a no-op, a fixed error, or a
well-formed `source:target` pair whose effect is the conflict check. -/
theorem parsePairStep_cases (q : Str) :
    (∀ m, parsePairStep m q = .ok m) ∨
    (∃ e, ∀ m, parsePairStep m q = .error e) ∨
    (∃ X Y, ∀ m, parsePairStep m q =
      (match alookup m X with
       | some t => if t ≠ Y then .error (conflictMsg X t Y) else .ok m
       | none => .ok (m ++ [(X, Y)]))) := by
  by_cases hpair : trimSpace q = []
  · exact Or.inl (fun m => by unfold parsePairStep; rw [if_pos hpair])
  · by_cases hcol : containsChar (trimSpace q) ':' = true
    · rcases hsplit : splitOnChar ':' (trimSpace q) with _ | ⟨s0, _ | ⟨t0, _ | _⟩⟩
      · refine Or.inr (Or.inl ⟨str "invalid mapping format: '" ++ trimSpace q ++
          str "'. Expected exactly one ':'", fun m => ?_⟩)
        unfold parsePairStep
        rw [if_neg hpair, if_neg (by simp [hcol]), hsplit]
      · refine Or.inr (Or.inl ⟨str "invalid mapping format: '" ++ trimSpace q ++
          str "'. Expected exactly one ':'", fun m => ?_⟩)
        unfold parsePairStep
        rw [if_neg hpair, if_neg (by simp [hcol]), hsplit]
      · by_cases hemp : trimSpace s0 = [] ∨ trimSpace t0 = []
        · refine Or.inr (Or.inl ⟨str "invalid mapping: '" ++ trimSpace q ++
            str "'. Source and target cannot be empty", fun m => ?_⟩)
          unfold parsePairStep
          rw [if_neg hpair, if_neg (by simp [hcol]), hsplit]
          simp only [if_pos hemp]
        · by_cases hvs : isValidColor (trimSpace s0) = true
          · by_cases hvt : isValidColor (trimSpace t0) = true
            · refine Or.inr (Or.inr ⟨trimSpace s0, trimSpace t0, fun m => ?_⟩)
              unfold parsePairStep
              rw [if_neg hpair, if_neg (by simp [hcol]), hsplit]
              simp only [if_neg hemp, if_neg (not_not_intro hvs),
                if_neg (not_not_intro hvt)]
            · refine Or.inr (Or.inl ⟨if isValidHexColor (trimSpace t0) = true then
                  str "internal error validating target color: '" ++ trimSpace t0 ++ str "'"
                else invalidColorMsg (str "target") (trimSpace t0), fun m => ?_⟩)
              unfold parsePairStep
              rw [if_neg hpair, if_neg (by simp [hcol]), hsplit]
              simp only [if_neg hemp, if_neg (not_not_intro hvs),
                if_pos (by simp [hvt] : ¬ isValidColor (trimSpace t0) = true)]
              split <;> rfl
          · refine Or.inr (Or.inl ⟨if isValidHexColor (trimSpace s0) = true then
                str "internal error validating source color: '" ++ trimSpace s0 ++ str "'"
              else invalidColorMsg (str "source") (trimSpace s0), fun m => ?_⟩)
            unfold parsePairStep
            rw [if_neg hpair, if_neg (by simp [hcol]), hsplit]
            simp only [if_neg hemp,
              if_pos (by simp [hvs] : ¬ isValidColor (trimSpace s0) = true)]
            split <;> rfl
      · refine Or.inr (Or.inl ⟨str "invalid mapping format: '" ++ trimSpace q ++
          str "'. Expected exactly one ':'", fun m => ?_⟩)
        unfold parsePairStep
        rw [if_neg hpair, if_neg (by simp [hcol]), hsplit]
    · refine Or.inr (Or.inl ⟨str "invalid mapping format: '" ++ trimSpace q ++
        str "'. Expected 'source:target'", fun m => ?_⟩)
      unfold parsePairStep
      rw [if_neg hpair, if_pos (by simp [hcol])]

theorem parsePairStep_extends {m m' : List (Str × Str)} {q : Str}
    (h : parsePairStep m q = .ok m') : ∃ l, m' = m ++ l := by
  rcases parsePairStep_cases q with hc | ⟨e, hc⟩ | ⟨X, Y, hc⟩
  · rw [hc m] at h
    injection h with h2
    exact ⟨[], by rw [← h2]; simp⟩
  · rw [hc m] at h
    exact Except.noConfusion h
  · rw [hc m] at h
    cases hl : alookup m X with
    | some t =>
      rw [hl] at h
      by_cases hty : t = Y
      · simp only [hty, ne_eq, not_true_eq_false, if_false] at h
        injection h with h2
        exact ⟨[], by rw [← h2]; simp⟩
      · simp only [ne_eq, hty, not_false_eq_true, if_true] at h
        exact Except.noConfusion h
    | none =>
      rw [hl] at h
      injection h with h2
      exact ⟨[(X, Y)], h2.symm⟩

theorem parsePairStep_idem {m m' : List (Str × Str)} {q : Str}
    (h : parsePairStep m q = .ok m') : parsePairStep m' q = .ok m' := by
  rcases parsePairStep_cases q with hc | ⟨e, hc⟩ | ⟨X, Y, hc⟩
  · exact hc m'
  · rw [hc m] at h
    exact Except.noConfusion h
  · rw [hc m] at h
    rw [hc m']
    cases hl : alookup m X with
    | some t =>
      rw [hl] at h
      by_cases hty : t = Y
      · subst hty
        simp only [ne_eq, not_true_eq_false, if_false] at h
        injection h with h2
        subst h2
        rw [hl]
        simp
      · simp only [ne_eq, hty, not_false_eq_true, if_true] at h
        exact Except.noConfusion h
    | none =>
      rw [hl] at h
      injection h with h2
      subst h2
      rw [alookup_append_none hl]
      simp [alookup]

theorem parsePairStep_monot {m m2 : List (Str × Str)} {p : Str}
    (hext : ∃ l, m2 = m ++ l) (hp : parsePairStep m p = .ok m) :
    parsePairStep m2 p = .ok m2 := by
  rcases parsePairStep_cases p with hc | ⟨e, hc⟩ | ⟨X, Y, hc⟩
  · exact hc m2
  · rw [hc m] at hp
    exact Except.noConfusion hp
  · rw [hc m] at hp
    rw [hc m2]
    cases hl : alookup m X with
    | some t =>
      rw [hl] at hp
      by_cases hty : t = Y
      · subst hty
        obtain ⟨l, rfl⟩ := hext
        rw [alookup_append_some hl]
        simp
      · simp only [ne_eq, hty, not_false_eq_true, if_true] at hp
        exact Except.noConfusion hp
    | none =>
      rw [hl] at hp
      injection hp with h2
      exact absurd h2.symm (by simp)

theorem parsePairs_cons (p : Str) (rest : List Str) (m : List (Str × Str)) :
    parsePairs (p :: rest) m =
      (match parsePairStep m p with
       | .ok m' => parsePairs rest m'
       | .error e => .error e) := rfl

theorem parsePairs_skip_dup (l2 l3 : List Str) (p : Str) :
    ∀ m, parsePairStep m p = .ok m →
    parsePairs (l2 ++ (p :: l3)) m = parsePairs (l2 ++ l3) m := by
  induction l2 with
  | nil =>
    intro m hp
    simp [parsePairs, hp]
  | cons q l2' ih =>
    intro m hp
    rw [List.cons_append, List.cons_append, parsePairs_cons, parsePairs_cons]
    cases hq : parsePairStep m q with
    | error e => rfl
    | ok m2 =>
      exact ih m2 (parsePairStep_monot (parsePairStep_extends hq) hp)

/-- Duplicate absorption at the level of the table-building loop: a pair
that occurs twice in the pair list contributes exactly once — removing
the later occurrence never changes the result (table or error). -/
theorem parsePairs_dup_absorb (l1 l2 l3 : List Str) (p : Str) :
    ∀ m, parsePairs (l1 ++ (p :: (l2 ++ (p :: l3)))) m =
      parsePairs (l1 ++ (p :: (l2 ++ l3))) m := by
  induction l1 with
  | nil =>
    intro m
    rw [List.nil_append, List.nil_append, parsePairs_cons, parsePairs_cons]
    cases hp : parsePairStep m p with
    | error e => rfl
    | ok m' =>
      exact parsePairs_skip_dup l2 l3 p m' (parsePairStep_idem hp)
  | cons q l1' ih =>
    intro m
    rw [List.cons_append, List.cons_append, parsePairs_cons, parsePairs_cons]
    cases hq : parsePairStep m q with
    | error e => rfl
    | ok m2 => exact ih m2

/-- A `source:target` pair string. -/
def mkPair (X Y : Str) : Str := X ++ ':' :: Y

/-- Claim C6: in the table-building loop a repeated identical pair is
silently absorbed (removing the duplicate changes nothing), so parsing
"X:Y,X:Y" yields the same single-entry table as parsing "X:Y"; while a
source repeated with two different targets Y ≠ Z fails with the
conflicting-mapping error that reports both target values. -/
theorem C6_conflictHandling :
    (∀ (l1 l2 l3 : List Str) (p : Str) (m : List (Str × Str)),
      parsePairs (l1 ++ (p :: (l2 ++ (p :: l3)))) m =
        parsePairs (l1 ++ (p :: (l2 ++ l3))) m) ∧
    (∀ X Y : Str, isValidColor X = true → isValidColor Y = true →
      ParseColorMapping (mkPair X Y ++ ',' :: mkPair X Y) =
        ParseColorMapping (mkPair X Y) ∧
      ParseColorMapping (mkPair X Y) = .ok [(X, Y)]) ∧
    (∀ X Y Z : Str, isValidColor X = true → isValidColor Y = true →
      isValidColor Z = true → Y ≠ Z →
      ParseColorMapping (mkPair X Y ++ ',' :: mkPair X Z) =
        .error (conflictMsg X Y Z)) := by
  have clean : ∀ {s : Str}, isValidColor s = true →
      ∀ c ∈ s, c ≠ ',' ∧ c ≠ ':' ∧ isSpaceChar c = false :=
    fun h => (validColor_clean h).2
  have pairClean : ∀ {X Y : Str}, isValidColor X = true → isValidColor Y = true →
      ∀ c ∈ mkPair X Y, c ≠ ',' ∧ isSpaceChar c = false := by
    intro X Y hX hY c hc
    rcases List.mem_append.mp hc with hc | hc
    · exact ⟨(clean hX c hc).1, (clean hX c hc).2.2⟩
    · rcases List.mem_cons.mp hc with rfl | hc
      · exact ⟨by decide, by decide⟩
      · exact ⟨(clean hY c hc).1, (clean hY c hc).2.2⟩
  refine ⟨fun l1 l2 l3 p m => parsePairs_dup_absorb l1 l2 l3 p m, ?_, ?_⟩
  · intro X Y hX hY
    have hstep := parsePairStep_valid [] X Y hX hY
    have hsingle : ParseColorMapping (mkPair X Y) = .ok [(X, Y)] := by
      have hcl : ∀ c ∈ X ++ ':' :: Y, isSpaceChar c = false :=
        fun c hc => (pairClean hX hY c hc).2
      have hnc : ∀ c ∈ X ++ ':' :: Y, c ≠ ',' :=
        fun c hc => (pairClean hX hY c hc).1
      unfold ParseColorMapping mkPair
      rw [trimSpace_eq_self hcl]
      rw [if_neg (by simp)]
      rw [splitOnChar_no_sep hnc]
      rw [parsePairs_cons, hstep]
      simp [alookup, parsePairs]
    refine ⟨?_, hsingle⟩
    rw [hsingle]
    unfold ParseColorMapping
    have hcleanAll : ∀ c ∈ mkPair X Y ++ ',' :: mkPair X Y, isSpaceChar c = false := by
      intro c hc
      rcases List.mem_append.mp hc with hc | hc
      · exact (pairClean hX hY c hc).2
      · rcases List.mem_cons.mp hc with rfl | hc
        · decide
        · exact (pairClean hX hY c hc).2
    rw [trimSpace_eq_self hcleanAll]
    rw [if_neg (by simp [mkPair])]
    rw [splitOnChar_append (fun c hc => (pairClean hX hY c hc).1)]
    rw [splitOnChar_no_sep (fun c hc => (pairClean hX hY c hc).1)]
    show (match parsePairs [mkPair X Y, mkPair X Y] [] with
      | .error e => Except.error e
      | .ok mappings =>
        if mappings = [] then Except.error (str "no valid mappings found")
        else Except.ok mappings) = Except.ok [(X, Y)]
    rw [parsePairs_cons]
    show (match (match parsePairStep [] (X ++ ':' :: Y) with
      | .ok m' => parsePairs [mkPair X Y] m'
      | .error e => .error e) with
      | .error e => Except.error e
      | .ok mappings =>
        if mappings = [] then Except.error (str "no valid mappings found")
        else Except.ok mappings) = Except.ok [(X, Y)]
    rw [hstep]
    simp only [alookup, List.nil_append]
    rw [parsePairs_cons]
    show (match (match parsePairStep [(X, Y)] (X ++ ':' :: Y) with
      | .ok m' => parsePairs [] m'
      | .error e => .error e) with
      | .error e => Except.error e
      | .ok mappings =>
        if mappings = [] then Except.error (str "no valid mappings found")
        else Except.ok mappings) = Except.ok [(X, Y)]
    rw [parsePairStep_valid [(X, Y)] X Y hX hY]
    simp [alookup, parsePairs]
  · intro X Y Z hX hY hZ hYZ
    unfold ParseColorMapping
    have hcleanAll : ∀ c ∈ mkPair X Y ++ ',' :: mkPair X Z, isSpaceChar c = false := by
      intro c hc
      rcases List.mem_append.mp hc with hc | hc
      · exact (pairClean hX hY c hc).2
      · rcases List.mem_cons.mp hc with rfl | hc
        · decide
        · exact (pairClean hX hZ c hc).2
    rw [trimSpace_eq_self hcleanAll]
    rw [if_neg (by simp [mkPair])]
    rw [splitOnChar_append (fun c hc => (pairClean hX hY c hc).1)]
    rw [splitOnChar_no_sep (fun c hc => (pairClean hX hZ c hc).1)]
    show (match parsePairs [mkPair X Y, mkPair X Z] [] with
      | .error e => Except.error e
      | .ok mappings =>
        if mappings = [] then Except.error (str "no valid mappings found")
        else Except.ok mappings) = .error (conflictMsg X Y Z)
    rw [parsePairs_cons]
    show (match (match parsePairStep [] (X ++ ':' :: Y) with
      | .ok m' => parsePairs [mkPair X Z] m'
      | .error e => .error e) with
      | .error e => Except.error e
      | .ok mappings =>
        if mappings = [] then Except.error (str "no valid mappings found")
        else Except.ok mappings) = .error (conflictMsg X Y Z)
    rw [parsePairStep_valid [] X Y hX hY]
    simp only [alookup, List.nil_append]
    rw [parsePairs_cons]
    show (match (match parsePairStep [(X, Y)] (X ++ ':' :: Z) with
      | .ok m' => parsePairs [] m'
      | .error e => .error e) with
      | .error e => Except.error e
      | .ok mappings =>
        if mappings = [] then Except.error (str "no valid mappings found")
        else Except.ok mappings) = .error (conflictMsg X Y Z)
    rw [parsePairStep_valid [(X, Y)] X Z hX hZ]
    simp [alookup, hYZ]

/-- Witness for C6_conflictHandling: concrete duplicate absorption and
conflict detection on scheme tokens. -/
theorem C6_conflictHandling_witness :
    ParseColorMapping (mkPair (str "accent1") (str "accent2") ++
      ',' :: mkPair (str "accent1") (str "accent2")) = .ok [(str "accent1", str "accent2")] ∧
    ParseColorMapping (mkPair (str "accent1") (str "accent2") ++
      ',' :: mkPair (str "accent1") (str "accent3")) =
      .error (conflictMsg (str "accent1") (str "accent2") (str "accent3")) := by
  constructor
  · have h := (C6_conflictHandling.2.1 (str "accent1") (str "accent2")
      (by decide) (by decide))
    rw [h.1, h.2]
  · exact C6_conflictHandling.2.2 (str "accent1") (str "accent2") (str "accent3")
      (by decide) (by decide) (by decide) (by decide)

/-! ### Claim C10 — slide-range parsing -/

theorem digitChar_toNat {n : Nat} (h : n < 10) : (digitChar n).toNat = 48 + n := by
  interval_cases n <;> decide

theorem digitChar_digit {n : Nat} (h : n < 10) : isDigitChar (digitChar n) = true := by
  interval_cases n <;> decide

theorem natToStrF_digits : ∀ (fuel n : Nat), n ≤ fuel ∨ n < 10 →
    ∀ c ∈ natToStrF fuel n, isDigitChar c = true := by
  intro fuel
  induction fuel with
  | zero =>
    intro n hn c hc
    have h10 : n < 10 := by omega
    simp only [natToStrF, List.mem_singleton] at hc
    subst hc
    exact digitChar_digit h10
  | succ fuel ih =>
    intro n hn c hc
    by_cases h10 : n < 10
    · simp only [natToStrF, if_pos h10, List.mem_singleton] at hc
      subst hc
      exact digitChar_digit h10
    · simp only [natToStrF, if_neg h10, List.mem_append, List.mem_singleton] at hc
      rcases hc with hc | hc
      · exact ih (n / 10) (by omega) c hc
      · subst hc
        exact digitChar_digit (by omega)

theorem natToStr_digits (n : Nat) : ∀ c ∈ natToStr n, isDigitChar c = true :=
  natToStrF_digits n n (Or.inl le_rfl)

theorem digitChar_clean {c : Char} (h : isDigitChar c = true) :
    c ≠ ',' ∧ c ≠ '-' ∧ c ≠ '+' ∧ isSpaceChar c = false := by
  refine ⟨fun hc => ?_, fun hc => ?_, fun hc => ?_, ?_⟩
  · subst hc; exact absurd h (by decide)
  · subst hc; exact absurd h (by decide)
  · subst hc; exact absurd h (by decide)
  · by_contra hsp
    have hsp' : isSpaceChar c = true := by
      cases hcase : isSpaceChar c
      · exact absurd hcase hsp
      · rfl
    simp only [isSpaceChar, Bool.or_eq_true, decide_eq_true_eq] at hsp'
    rcases hsp' with ((((rfl | rfl) | rfl) | rfl) | rfl) | rfl <;>
      exact absurd h (by decide)

theorem digitsVal_append_digit (xs : Str) (d : Char) :
    digitsVal (xs ++ [d]) = 10 * digitsVal xs + (d.toNat - 48) := by
  unfold digitsVal
  rw [List.foldl_append]
  rfl

theorem digitsVal_natToStrF : ∀ (fuel n : Nat), n ≤ fuel ∨ n < 10 →
    digitsVal (natToStrF fuel n) = n := by
  intro fuel
  induction fuel with
  | zero =>
    intro n hn
    have h10 : n < 10 := by omega
    simp only [natToStrF]
    unfold digitsVal
    simp [digitChar_toNat h10]
  | succ fuel ih =>
    intro n hn
    by_cases h10 : n < 10
    · simp only [natToStrF, if_pos h10]
      unfold digitsVal
      simp [digitChar_toNat h10]
    · simp only [natToStrF, if_neg h10]
      rw [digitsVal_append_digit, ih (n / 10) (by omega),
        digitChar_toNat (by omega : n % 10 < 10)]
      omega

theorem natToStr_ne_nil (n : Nat) : natToStr n ≠ [] := by
  unfold natToStr
  cases hf : n with
  | zero => simp [natToStrF]
  | succ m =>
    simp only [natToStrF]
    split <;> simp

theorem atoiDigits_of_digits {d : Str} (hne : d ≠ [])
    (hdig : ∀ c ∈ d, isDigitChar c = true) :
    atoiDigits d = some (digitsVal d) := by
  unfold atoiDigits
  rw [if_pos]
  simp only [Bool.and_eq_true, decide_eq_true_eq, ne_eq, List.all_eq_true]
  exact ⟨hne, hdig⟩

theorem atoi_natToStr (n : Nat) : atoi (natToStr n) = .ok (n : Int) := by
  have hdig := natToStr_digits n
  have hne := natToStr_ne_nil n
  cases hs : natToStr n with
  | nil => exact absurd hs hne
  | cons c cs =>
    have hc : isDigitChar c = true := hdig c (hs ▸ List.mem_cons_self c cs)
    have hcm : c ≠ '-' := (digitChar_clean hc).2.1
    have hcp : c ≠ '+' := (digitChar_clean hc).2.2.1
    simp only [atoi]
    rw [if_neg hcm, if_neg hcp,
      atoiDigits_of_digits (by simp) (fun x hx => hdig x (hs ▸ hx))]
    have hval : digitsVal (c :: cs) = n := by
      rw [← hs]
      exact digitsVal_natToStrF n n (Or.inl le_rfl)
    rw [hval]

theorem trimLeft_all_space {s : Str} (h : ∀ c ∈ s, isSpaceChar c = true) :
    trimLeft s = [] := by
  induction s with
  | nil => rfl
  | cons c cs ih =>
    simp only [trimLeft, h c (List.mem_cons_self c cs), if_true]
    exact ih (fun x hx => h x (List.mem_cons_of_mem _ hx))

theorem trimSpace_all_space {s : Str} (h : ∀ c ∈ s, isSpaceChar c = true) :
    trimSpace s = [] := by
  unfold trimSpace
  rw [trimLeft_all_space h]
  rfl

theorem splitOnChar_ne_nil (sep : Char) (s : Str) : splitOnChar sep s ≠ [] := by
  cases s with
  | nil => simp [splitOnChar]
  | cons c cs =>
    simp only [splitOnChar]
    by_cases h : c = sep
    · simp [h]
    · simp only [if_neg h]
      cases splitOnChar sep cs <;> simp

theorem splitOnChar_chars {sep : Char} {s : Str} :
    ∀ p ∈ splitOnChar sep s, ∀ c ∈ p, c ∈ s ∧ c ≠ sep := by
  induction s with
  | nil =>
    intro p hp c hc
    simp only [splitOnChar, List.mem_singleton] at hp
    subst hp
    cases hc
  | cons x xs ih =>
    intro p hp c hc
    simp only [splitOnChar] at hp
    by_cases hx : x = sep
    · rw [if_pos hx] at hp
      rcases List.mem_cons.mp hp with rfl | hp
      · cases hc
      · obtain ⟨hcs, hcsep⟩ := ih p hp c hc
        exact ⟨List.mem_cons_of_mem _ hcs, hcsep⟩
    · rw [if_neg hx] at hp
      rcases hrest : splitOnChar sep xs with _ | ⟨r, rs⟩
      · exact absurd hrest (splitOnChar_ne_nil sep xs)
      · rw [hrest] at hp
        rcases List.mem_cons.mp hp with rfl | hp
        · rcases List.mem_cons.mp hc with rfl | hc
          · exact ⟨List.mem_cons_self _ _, hx⟩
          · obtain ⟨hcs, hcsep⟩ := ih r (hrest ▸ List.mem_cons_self r rs) c hc
            exact ⟨List.mem_cons_of_mem _ hcs, hcsep⟩
        · obtain ⟨hcs, hcsep⟩ := ih p (hrest ▸ List.mem_cons_of_mem r hp) c hc
          exact ⟨List.mem_cons_of_mem _ hcs, hcsep⟩

theorem sortedInsertInt_mem {x b : Int} {l : List Int} :
    b ∈ sortedInsertInt x l ↔ b = x ∨ b ∈ l := by
  induction l with
  | nil => simp [sortedInsertInt]
  | cons y ys ih =>
    by_cases hxy : x ≤ y
    · simp [sortedInsertInt, hxy]
    · simp [sortedInsertInt, hxy, ih]
      tauto

theorem sortedInsertInt_nodup {x : Int} {l : List Int} (hx : x ∉ l)
    (h : l.Nodup) : (sortedInsertInt x l).Nodup := by
  induction l with
  | nil => simp [sortedInsertInt]
  | cons y ys ih =>
    by_cases hxy : x ≤ y
    · simp only [sortedInsertInt, if_pos hxy]
      exact List.Nodup.cons hx h
    · simp only [sortedInsertInt, if_neg hxy]
      rw [List.nodup_cons] at h ⊢
      refine ⟨?_, ih (fun hm => hx (List.mem_cons_of_mem _ hm)) h.2⟩
      rw [sortedInsertInt_mem]
      rintro (rfl | hm)
      · exact hx (List.mem_cons_self _ _)
      · exact h.1 hm

theorem chain_sortedInsertInt (x : Int) (l : List Int)
    (h : List.Chain' (· ≤ ·) l) :
    List.Chain' (· ≤ ·) (sortedInsertInt x l) := by
  induction l with
  | nil => simp [sortedInsertInt]
  | cons y ys ih =>
    by_cases hxy : x ≤ y
    · simp only [sortedInsertInt, if_pos hxy]
      exact List.Chain'.cons hxy h
    · simp only [sortedInsertInt, if_neg hxy]
      have hins := ih h.tail
      cases ys with
      | nil =>
        simp only [sortedInsertInt]
        exact List.chain'_pair.mpr (by omega)
      | cons z zs =>
        by_cases hxz : x ≤ z
        · simp only [sortedInsertInt, if_pos hxz] at hins ⊢
          exact List.chain'_cons.mpr ⟨by omega, hins⟩
        · simp only [sortedInsertInt, if_neg hxz] at hins ⊢
          exact List.chain'_cons.mpr ⟨(List.chain'_cons.mp h).1, hins⟩

theorem sortInts_mem {b : Int} {l : List Int} : b ∈ sortInts l ↔ b ∈ l := by
  induction l with
  | nil => simp [sortInts]
  | cons x xs ih => simp [sortInts, sortedInsertInt_mem, ih]

theorem sortInts_nodup {l : List Int} (h : l.Nodup) : (sortInts l).Nodup := by
  induction l with
  | nil => simp [sortInts]
  | cons x xs ih =>
    rw [List.nodup_cons] at h
    exact sortedInsertInt_nodup (fun hm => h.1 (sortInts_mem.mp hm)) (ih h.2)

theorem chain_sortInts (l : List Int) : List.Chain' (· ≤ ·) (sortInts l) := by
  induction l with
  | nil => simp [sortInts]
  | cons x xs ih => exact chain_sortedInsertInt x (sortInts xs) ih

/-- Invariant of the slide-selection accumulator: all selected numbers
are at least 1 and the accumulator is duplicate-free. -/
def slidesInv (acc : List Int) : Prop :=
  (∀ x ∈ acc, 1 ≤ x) ∧ acc.Nodup

theorem foldInsert_inv (start : Int) (hstart : 1 ≤ start) (l : List Nat) :
    ∀ acc, slidesInv acc →
    slidesInv (List.foldl (fun (acc : List Int) (i : Nat) =>
      let n := start + (i : Int);
      if acc.contains n then acc else acc ++ [n]) acc l) := by
  induction l with
  | nil => intro acc h; exact h
  | cons i is ih =>
    intro acc h
    rw [List.foldl_cons]
    apply ih
    by_cases hc : acc.contains (start + (i : Int)) = true
    · simp only [if_pos hc]
      exact h
    · have hnotmem : start + (i : Int) ∉ acc := fun hm => hc (List.elem_iff.mpr hm)
      simp only [if_neg hc]
      constructor
      · intro x hx
        rcases List.mem_append.mp hx with hx | hx
        · exact h.1 x hx
        · rw [List.mem_singleton] at hx
          subst hx
          have : (0 : Int) ≤ (i : Int) := Int.natCast_nonneg i
          omega
      · rw [List.nodup_append]
        exact ⟨h.2, List.nodup_singleton _,
          fun a ha hb => by rw [List.mem_singleton] at hb; subst hb; exact hnotmem ha⟩

theorem slideRangeStep_inv {acc acc' : List Int} {p : Str}
    (h : slideRangeStep acc p = .ok acc') (hinv : slidesInv acc) :
    slidesInv acc' := by
  simp only [slideRangeStep] at h
  split at h
  · -- range branch
    split at h
    · -- [sp0, sp1]
      split at h
      · exact Except.noConfusion h
      · split at h
        · exact Except.noConfusion h
        · split at h
          · exact Except.noConfusion h
          · split at h
            · exact Except.noConfusion h
            · injection h with h2
              subst h2
              apply foldInsert_inv
              · omega
              · exact hinv
    · exact Except.noConfusion h
  · -- single-number branch
    split at h
    · exact Except.noConfusion h
    · split at h
      · exact Except.noConfusion h
      · split at h
        · injection h with h2
          subst h2
          exact hinv
        · rename_i hcont
          injection h with h2
          subst h2
          constructor
          · intro x hx
            rcases List.mem_append.mp hx with hx | hx
            · exact hinv.1 x hx
            · rw [List.mem_singleton] at hx
              subst hx
              omega
          · rw [List.nodup_append]
            exact ⟨hinv.2, List.nodup_singleton _,
              fun a ha hb => by
                rw [List.mem_singleton] at hb
                subst hb
                exact (fun hm => hcont (List.elem_iff.mpr hm)) ha⟩

theorem slideRangeLoop_cons (p : Str) (rest : List Str) (slides : List Int) :
    slideRangeLoop (p :: rest) slides =
      (match slideRangeStep slides p with
       | .ok s => slideRangeLoop rest s
       | .error e => .error e) := rfl

theorem slideRangeLoop_inv {parts : List Str} :
    ∀ {acc acc' : List Int}, slideRangeLoop parts acc = .ok acc' →
    slidesInv acc → slidesInv acc' := by
  induction parts with
  | nil =>
    intro acc acc' h hinv
    injection h with h2
    subst h2
    exact hinv
  | cons p rest ih =>
    intro acc acc' h hinv
    rw [slideRangeLoop_cons] at h
    cases hp : slideRangeStep acc p with
    | error e => rw [hp] at h; exact Except.noConfusion h
    | ok m =>
      rw [hp] at h
      exact ih h (slideRangeStep_inv hp hinv)

/-- Claim C10: the empty slide-range string parses to the empty
selection with no error; every successful parse is sorted ascending with
duplicates removed and contains only numbers ≥ 1 (and is non-empty for
non-empty input); input consisting only of separators and whitespace, a
number below 1, and a range with start greater than end are all
rejected with an error. -/
theorem C10_slideRange :
    (ParseSlideRange [] = .ok []) ∧
    (∀ s l, ParseSlideRange s = .ok l →
      List.Chain' (· ≤ ·) l ∧ l.Nodup ∧ (∀ x ∈ l, 1 ≤ x) ∧ (s ≠ [] → l ≠ [])) ∧
    (∀ s, s ≠ [] → (∀ c ∈ s, c = ',' ∨ isSpaceChar c = true) →
      ∃ e, ParseSlideRange s = .error e) ∧
    (∀ n : Int, n < 1 → ∃ e, ParseSlideRange (intToStr n) = .error e) ∧
    (∀ a b : Nat, 1 ≤ b → b < a →
      ∃ e, ParseSlideRange (natToStr a ++ '-' :: natToStr b) = .error e) := by
  refine ⟨rfl, ?_, ?_, ?_, ?_⟩
  · -- success shape
    intro s l h
    unfold ParseSlideRange at h
    by_cases hs : s = []
    · rw [if_pos hs] at h
      injection h with h2
      subst h2
      exact ⟨List.chain'_nil, List.nodup_nil, by simp, fun hne => absurd hs hne⟩
    · rw [if_neg hs] at h
      cases hloop : slideRangeLoop (splitOnChar ',' s) [] with
      | error e => rw [hloop] at h; exact Except.noConfusion h
      | ok slides =>
        rw [hloop] at h
        replace h : (if slides = [] then Except.error (str "no slides specified")
          else Except.ok (sortInts slides)) = Except.ok l := h
        by_cases hsl : slides = []
        · rw [if_pos hsl] at h; exact Except.noConfusion h
        · rw [if_neg hsl] at h
          injection h with h2
          subst h2
          have hinv := slideRangeLoop_inv hloop ⟨by simp, List.nodup_nil⟩
          refine ⟨chain_sortInts slides, sortInts_nodup hinv.2,
            fun x hx => hinv.1 x (sortInts_mem.mp hx), fun _ hnil => ?_⟩
          obtain ⟨x, hx⟩ := List.exists_mem_of_ne_nil slides hsl
          have : x ∈ sortInts slides := sortInts_mem.mpr hx
          rw [hnil] at this
          cases this
  · -- only separators / whitespace
    intro s hs hsep
    obtain ⟨p, rest, hsplit⟩ : ∃ p rest, splitOnChar ',' s = p :: rest := by
      cases hsp : splitOnChar ',' s with
      | nil => exact absurd hsp (splitOnChar_ne_nil ',' s)
      | cons p r => exact ⟨p, r, rfl⟩
    have hpspace : ∀ c ∈ p, isSpaceChar c = true := by
      intro c hc
      obtain ⟨hcs, hcsep⟩ :=
        splitOnChar_chars p (hsplit ▸ List.mem_cons_self p rest) c hc
      rcases hsep c hcs with h1 | h1
      · exact absurd h1 hcsep
      · exact h1
    unfold ParseSlideRange
    rw [if_neg hs, hsplit, slideRangeLoop_cons]
    simp only [slideRangeStep]
    rw [trimSpace_all_space hpspace]
    simp [containsChar, atoi]
  · -- number below 1
    intro n hn
    by_cases hn0 : n < 0
    · have hform : intToStr n = '-' :: natToStr n.natAbs := by
        unfold intToStr
        rw [if_pos hn0]
      rw [hform]
      have hDdig := natToStr_digits n.natAbs
      have hnc : ∀ c ∈ '-' :: natToStr n.natAbs, c ≠ ',' := by
        intro c hc
        rcases List.mem_cons.mp hc with rfl | hc
        · decide
        · exact (digitChar_clean (hDdig c hc)).1
      have hnsp : ∀ c ∈ '-' :: natToStr n.natAbs, isSpaceChar c = false := by
        intro c hc
        rcases List.mem_cons.mp hc with rfl | hc
        · decide
        · exact (digitChar_clean (hDdig c hc)).2.2.2
      unfold ParseSlideRange
      rw [if_neg (by simp), splitOnChar_no_sep hnc, slideRangeLoop_cons]
      simp only [slideRangeStep]
      rw [trimSpace_eq_self hnsp]
      rw [if_pos (by simp [containsChar] : containsChar ('-' :: natToStr n.natAbs) '-' = true)]
      have hsplit2 : splitOnChar '-' ('-' :: natToStr n.natAbs) =
          [] :: splitOnChar '-' (natToStr n.natAbs) := by
        simp [splitOnChar]
      have hsplitD : splitOnChar '-' (natToStr n.natAbs) = [natToStr n.natAbs] :=
        splitOnChar_no_sep (fun c hc => (digitChar_clean (hDdig c hc)).2.1)
      rw [hsplit2, hsplitD]
      simp [trimSpace, trimLeft, atoi]
    · have : n = 0 := by omega
      subst this
      exact ⟨str "invalid slide number 0 (must be ≥ 1)", by rfl⟩
  · -- start > end
    intro a b hb hba
    have hAdig := natToStr_digits a
    have hBdig := natToStr_digits b
    have hallsafe : ∀ c ∈ natToStr a ++ '-' :: natToStr b,
        c ≠ ',' ∧ isSpaceChar c = false := by
      intro c hc
      rcases List.mem_append.mp hc with hc | hc
      · exact ⟨(digitChar_clean (hAdig c hc)).1, (digitChar_clean (hAdig c hc)).2.2.2⟩
      · rcases List.mem_cons.mp hc with rfl | hc
        · exact ⟨by decide, by decide⟩
        · exact ⟨(digitChar_clean (hBdig c hc)).1, (digitChar_clean (hBdig c hc)).2.2.2⟩
    unfold ParseSlideRange
    rw [if_neg (by simp [natToStr_ne_nil a]),
      splitOnChar_no_sep (fun c hc => (hallsafe c hc).1), slideRangeLoop_cons]
    simp only [slideRangeStep]
    rw [trimSpace_eq_self (fun c hc => (hallsafe c hc).2)]
    rw [if_pos (by simp [containsChar, List.any_append] :
      containsChar (natToStr a ++ '-' :: natToStr b) '-' = true)]
    rw [splitOnChar_append (fun c hc => (digitChar_clean (hAdig c hc)).2.1)]
    rw [splitOnChar_no_sep (fun c hc => (digitChar_clean (hBdig c hc)).2.1)]
    have htrA : trimSpace (natToStr a) = natToStr a :=
      trimSpace_eq_self (fun c hc => (digitChar_clean (hAdig c hc)).2.2.2)
    have htrB : trimSpace (natToStr b) = natToStr b :=
      trimSpace_eq_self (fun c hc => (digitChar_clean (hBdig c hc)).2.2.2)
    have h1 : ¬ ((a : Int) < 1) := by omega
    have h2 : (a : Int) > (b : Int) := by omega
    simp only [htrA, htrB, atoi_natToStr a, atoi_natToStr b, h1, h2,
      if_true, if_false, ite_true, ite_false]
    exact ⟨_, rfl⟩

/-- Witness for C10_slideRange: a concrete mixed range parses to the
sorted deduplicated selection, whose shape the theorem guarantees. -/
theorem C10_slideRange_witness :
    ParseSlideRange (str "1,3,5-8,3") = .ok [1, 3, 5, 6, 7, 8] ∧
    List.Chain' (· ≤ ·) ([1, 3, 5, 6, 7, 8] : List Int) ∧
    (str "1,3,5-8,3" ≠ []) :=
  ⟨by rfl,
   (C10_slideRange.2.1 (str "1,3,5-8,3") [1, 3, 5, 6, 7, 8] (by rfl)).1,
   by decide⟩


/-! ### Scanner-composition lemmas

`reScan` is driven by a fuel equal to the input length; the lemmas below
let a scan of a compound document be assembled from the matches of its
elements: fuel irrelevance, the one-match step, the one-character skip,
and skipping a whole match-free span. -/

theorem orElse_some {α : Type} (a : α) (f : Unit → Option α) :
    Option.orElse (some a) f = some a := rfl

theorem orElse_none {α : Type} (f : Unit → Option α) :
    Option.orElse none f = f () := rfl

theorem reScanF_fuelIrrel (r : Re) :
    ∀ (f1 f2 : Nat) (s : Str), s.length ≤ f1 → s.length ≤ f2 →
      reScanF r f1 s = reScanF r f2 s := by
  intro f1
  induction f1 with
  | zero =>
    intro f2 s h1 _
    have : s = [] := List.eq_nil_of_length_eq_zero (Nat.le_zero.mp h1)
    subst this
    cases f2 <;> rfl
  | succ f1 ih =>
    intro f2 s h1 h2
    cases s with
    | nil => cases f2 <;> rfl
    | cons c rest =>
      cases f2 with
      | zero => simp at h2
      | succ f2 =>
        simp only [reScanF]
        have hr1 : rest.length ≤ f1 := by simpa using h1
        have hr2 : rest.length ≤ f2 := by simpa using h2
        cases hm : matchAt r (c :: rest) with
        | none => rw [ih f2 rest hr1 hr2]
        | some v =>
          obtain ⟨cons, g, rem⟩ := v
          by_cases hlen : rem.length < (c :: rest).length
          · simp only [hlen, if_true]
            have hrem1 : rem.length ≤ f1 := by simp at hlen; omega
            have hrem2 : rem.length ≤ f2 := by simp at hlen; omega
            rw [ih f2 rem hrem1 hrem2]
          · simp only [hlen, if_false]
            rw [ih f2 rest hr1 hr2]

theorem reScan_step {r : Re} {c : Char} {t cons rem : Str} {g : Groups}
    (h : matchAt r (c :: t) = some (cons, g, rem)) (hlen : rem.length ≤ t.length) :
    reScan r (c :: t) = (([], g, cons) :: (reScan r rem).1, (reScan r rem).2) := by
  show reScanF r (t.length + 1) (c :: t) = _
  simp only [reScanF, h]
  have hlt : rem.length < (c :: t).length := by simp; omega
  simp only [hlt, if_true]
  rw [reScanF_fuelIrrel r t.length rem.length rem hlen le_rfl]
  rfl

theorem reScan_skip {r : Re} {c : Char} {t : Str}
    (h : matchAt r (c :: t) = none) :
    reScan r (c :: t) = consGap c (reScan r t) := by
  show reScanF r (t.length + 1) (c :: t) = _
  simp only [reScanF, h]
  rfl

theorem reScan_span {r : Re} {gap s : Str}
    (h : ∀ i, i < gap.length → matchAt r (gap.drop i ++ s) = none) :
    reScan r (gap ++ s) = prependGap gap (reScan r s) := by
  induction gap with
  | nil => rfl
  | cons c g ih =>
    have h0 : matchAt r (c :: (g ++ s)) = none := h 0 (by simp)
    rw [List.cons_append, reScan_skip h0, ih (fun i hi => h (i + 1) (by simpa using hi))]
    rfl

theorem prependGap_items {gap g0 : Str} {gr : Groups} {m : Str} {is : List ScanItem}
    {t : Str} :
    prependGap gap ((g0, gr, m) :: is, t) = ((gap ++ g0, gr, m) :: is, t) := by
  induction gap with
  | nil => rfl
  | cons c g ih => simp [prependGap, List.foldr_cons] at ih ⊢; rw [ih]; rfl

theorem prependGap_tail {gap t : Str} :
    prependGap gap ([], t) = ([], gap ++ t) := by
  induction gap with
  | nil => rfl
  | cons c g ih => simp [prependGap, List.foldr_cons] at ih ⊢; rw [ih]; rfl

theorem reScan_clean {r : Re}
    (hr : ∀ (x : Char) (xs : Str), ¬ (x = '<') → matchAt r (x :: xs) = none) :
    ∀ {s : Str}, (∀ c ∈ s, ¬ (c = '<')) → reScan r s = ([], s) := by
  intro s h
  induction s with
  | nil => rfl
  | cons c t ih =>
    rw [reScan_skip (hr c t (h c (by simp)))]
    rw [ih (fun c hc => h c (by simp [hc]))]
    rfl

theorem reScan_clean_pre {r : Re}
    (hr : ∀ (x : Char) (xs : Str), ¬ (x = '<') → matchAt r (x :: xs) = none)
    {gap : Str} (s : Str) (h : ∀ c ∈ gap, ¬ (c = '<')) :
    reScan r (gap ++ s) = prependGap gap (reScan r s) := by
  induction gap with
  | nil => rfl
  | cons c g ih =>
    rw [List.cons_append, reScan_skip (hr c _ (h c (by simp)))]
    rw [ih (fun c hc => h c (by simp [hc]))]
    rfl

/-! ### Character and vocabulary facts -/

theorem hex_notGt {c : Char} (h : isHexDigit c = true) : notGt c = true := by
  simp [isHexDigit] at h
  simp [notGt]
  rintro rfl
  revert h
  decide

theorem hex_reSpace {c : Char} (h : isHexDigit c = true) : reSpace c = false := by
  simp [isHexDigit] at h
  by_contra hb
  rw [Bool.not_eq_false] at hb
  simp [reSpace] at hb
  rcases hb with (((rfl | rfl) | rfl) | rfl) | rfl <;> (revert h; decide)

theorem hexCh_clean {c : Char} (h : isHexDigit c = true) :
    ¬(c = '>') ∧ ¬(c = '\t') ∧ ¬(c = '\n') ∧ ¬(c = '\x0c') ∧ ¬(c = '\x0d') ∧
    ¬(c = ' ') ∧ ¬(c = '"') ∧ ¬(c = '<') ∧ ¬(c = ':') ∧ ¬(c = '/') := by
  simp [isHexDigit] at h
  refine ⟨?_, ?_, ?_, ?_, ?_, ?_, ?_, ?_, ?_, ?_⟩ <;> (rintro rfl; revert h; decide)

theorem hexColor_decomp {v : Str} (h : isValidHexColor v = true) :
    ∃ c1 c2 c3 c4 c5 c6, v = [c1, c2, c3, c4, c5, c6] ∧
      isHexDigit c1 = true ∧ isHexDigit c2 = true ∧ isHexDigit c3 = true ∧
      isHexDigit c4 = true ∧ isHexDigit c5 = true ∧ isHexDigit c6 = true := by
  simp [isValidHexColor] at h
  obtain ⟨hlen, hall⟩ := h
  match v, hlen with
  | [c1, c2, c3, c4, c5, c6], _ =>
    simp [List.all_eq_true] at hall
    exact ⟨c1, c2, c3, c4, c5, c6, rfl, by tauto⟩

theorem hexColor_len {v : Str} (h : isValidHexColor v = true) : v.length = 6 := by
  simp [isValidHexColor] at h
  exact h.1

theorem token_valid {A : Str} (hA : A ∈ schemeTokens) : ValidSchemeColors A = true := by
  simp [ValidSchemeColors, List.elem_iff]
  exact hA

theorem token_not_hex {A : Str} (hA : A ∈ schemeTokens) : isValidHexColor A = false := by
  fin_cases hA <;> decide

theorem hex_not_scheme {v : Str} (h : isValidHexColor v = true) :
    ValidSchemeColors v = false := by
  have h6 := hexColor_len h
  by_contra hb
  rw [Bool.not_eq_false] at hb
  have hv : v ∈ schemeTokens := by
    simpa [ValidSchemeColors, List.elem_iff] using hb
  fin_cases hv <;> exact absurd h6 (by decide)

theorem scheme_not_hex {s : Str} (h : ValidSchemeColors s = true) :
    isValidHexColor s = false := by
  have hs : s ∈ schemeTokens := by simpa [ValidSchemeColors, List.elem_iff] using h
  exact token_not_hex hs

/-! ### Per-element match results of the three patterns

All three patterns open with a literal `<`, so no match can start at any
other character; on the canonical element shapes the match result is
computed per scheme token (the value of an RGB element stays symbolic,
handled by the character facts above). -/

theorem matchAt_patScheme_ne (x : Char) (xs : Str) (h : ¬ (x = '<')) :
    matchAt patScheme (x :: xs) = none := by
  simp [matchAt, patScheme, reSeqL, mrun, h]

theorem matchAt_patSrgb_ne (x : Char) (xs : Str) (h : ¬ (x = '<')) :
    matchAt patSrgb (x :: xs) = none := by
  simp [matchAt, patSrgb, reSeqL, mrun, h]

theorem matchAt_patFull_ne (x : Char) (xs : Str) (h : ¬ (x = '<')) :
    matchAt patFull (x :: xs) = none := by
  simp [matchAt, patFull, reSeqL, mrun, h, Option.orElse]

theorem matchAt_patScheme_elemSch {A : Str} (hA : A ∈ schemeTokens) (rest : Str) :
    matchAt patScheme (elemSch A ++ rest) = some (opnSch A, gpsSch A, '/' :: '>' :: rest) := by
  fin_cases hA <;> rfl

theorem matchAt_patScheme_elemCont {A : Str} (hA : A ∈ schemeTokens) (rest : Str) :
    matchAt patScheme (elemCont A ++ rest) = some (opnSch A, gpsSch A, innerCont ++ rest) := by
  fin_cases hA <;> rfl

/-- No `patScheme` match starts inside the child-and-closing-tag span of
a container element (in particular not at the `<` of the modifier child
or of the closing tag). -/
theorem matchAt_patScheme_inner (i : Nat) (hi : i < 38) (rest : Str) :
    matchAt patScheme (innerCont.drop i ++ rest) = none := by
  interval_cases i <;> rfl

theorem matchAt_patFull_elemSch {A : Str} (hA : A ∈ schemeTokens) (rest : Str) :
    matchAt patFull (elemSch A ++ rest) = some (elemSch A, gpsFullSelf A, rest) := by
  fin_cases hA <;> rfl

theorem matchAt_patFull_elemCont {A : Str} (hA : A ∈ schemeTokens) (rest : Str) :
    matchAt patFull (elemCont A ++ rest) = some (elemCont A, gpsFullCont A, rest) := by
  fin_cases hA <;> rfl

set_option maxHeartbeats 1000000 in
theorem matchAt_patSrgb_elemSrgb {v : Str} (hv : isValidHexColor v = true) (rest : Str) :
    matchAt patSrgb (elemSrgb v ++ rest) = some (opnSrgb v, gpsSrgb v, '/' :: '>' :: rest) := by
  obtain ⟨c1, c2, c3, c4, c5, c6, rfl, h1, h2, h3, h4, h5, h6⟩ := hexColor_decomp hv
  show matchAt patSrgb
      ('<' :: 'a' :: ':' :: 's' :: 'r' :: 'g' :: 'b' :: 'C' :: 'l' :: 'r' :: ' ' :: 'v' :: 'a' :: 'l' :: '=' :: '"' :: 
       c1::c2::c3::c4::c5::c6 :: '"' :: '/' :: '>' :: rest) =
    some ('<' :: 'a' :: ':' :: 's' :: 'r' :: 'g' :: 'b' :: 'C' :: 'l' :: 'r' :: ' ' :: 'v' :: 'a' :: 'l' :: '=' :: '"' :: 
       c1::c2::c3::c4::c5::c6 :: '"' :: [],
      [(3, ['"']), (2, [c1, c2, c3, c4, c5, c6]),
       (1, '<' :: 'a' :: ':' :: 's' :: 'r' :: 'g' :: 'b' :: 'C' :: 'l' :: 'r' :: ' ' :: 'v' :: 'a' :: 'l' :: '=' :: '"' :: [])],
      '/' :: '>' :: rest)
  simp [matchAt, patSrgb, reSeqL, reLits, str, mrun, runStarG, orElse_some, orElse_none,
    h1, h2, h3, h4, h5, h6,
    hex_notGt h1, hex_notGt h2, hex_notGt h3, hex_notGt h4, hex_notGt h5, hex_notGt h6,
    hex_reSpace h1, hex_reSpace h2, hex_reSpace h3, hex_reSpace h4, hex_reSpace h5,
    hex_reSpace h6, notGt, notColonGt, reSpace,
    hexCh_clean h1, hexCh_clean h2, hexCh_clean h3, hexCh_clean h4, hexCh_clean h5,
    hexCh_clean h6,
    (show isHexDigit '"' = false from by decide),
    (show isHexDigit '/' = false from by decide),
    (show isHexDigit '>' = false from by decide)]

/-! ### Element-level scan steps -/

theorem reScan_schemeElemSch {A : Str} (hA : A ∈ schemeTokens) (rest : Str) :
    reScan patScheme (elemSch A ++ rest) =
      (([], gpsSch A, opnSch A) :: (reScan patScheme ('/' :: '>' :: rest)).1,
       (reScan patScheme ('/' :: '>' :: rest)).2) := by
  have hm := matchAt_patScheme_elemSch hA rest
  show reScan patScheme ('<' :: (str "a:schemeClr val=\"" ++ A ++ str "\"/>" ++ rest)) = _
  refine reScan_step hm ?_
  have e1 : (str "a:schemeClr val=\"").length = 17 := rfl
  have e2 : (str "\"/>").length = 3 := rfl
  simp [e1, e2]
  omega

theorem reScan_schemeElemCont {A : Str} (hA : A ∈ schemeTokens) (rest : Str) :
    reScan patScheme (elemCont A ++ rest) =
      (([], gpsSch A, opnSch A) :: (reScan patScheme (innerCont ++ rest)).1,
       (reScan patScheme (innerCont ++ rest)).2) := by
  have hm := matchAt_patScheme_elemCont hA rest
  show reScan patScheme
      ('<' :: (str "a:schemeClr val=\"" ++ A ++ str "\"" ++ innerCont ++ rest)) = _
  refine reScan_step ?_ ?_
  · exact hm
  · have e1 : (str "a:schemeClr val=\"").length = 17 := rfl
    have e2 : (str "\"").length = 1 := rfl
    have e3 : innerCont.length = 38 := rfl
    simp [e1, e2, e3]
    omega

theorem reScan_patScheme_inner {rest : Str} (hrest : ∀ c ∈ rest, ¬ (c = '<')) :
    reScan patScheme (innerCont ++ rest) = ([], innerCont ++ rest) := by
  have hlen : innerCont.length = 38 := rfl
  rw [reScan_span (fun i hi => matchAt_patScheme_inner i (by omega) rest),
      reScan_clean matchAt_patScheme_ne hrest, prependGap_tail]

theorem reScan_fullElemSch {A : Str} (hA : A ∈ schemeTokens) (rest : Str) :
    reScan patFull (elemSch A ++ rest) =
      (([], gpsFullSelf A, elemSch A) :: (reScan patFull rest).1,
       (reScan patFull rest).2) := by
  have hm := matchAt_patFull_elemSch hA rest
  show reScan patFull ('<' :: (str "a:schemeClr val=\"" ++ A ++ str "\"/>" ++ rest)) = _
  refine reScan_step hm ?_
  have e1 : (str "a:schemeClr val=\"").length = 17 := rfl
  have e2 : (str "\"/>").length = 3 := rfl
  simp [e1, e2]
  omega

theorem reScan_fullElemCont {A : Str} (hA : A ∈ schemeTokens) (rest : Str) :
    reScan patFull (elemCont A ++ rest) =
      (([], gpsFullCont A, elemCont A) :: (reScan patFull rest).1,
       (reScan patFull rest).2) := by
  have hm := matchAt_patFull_elemCont hA rest
  show reScan patFull
      ('<' :: (str "a:schemeClr val=\"" ++ A ++ str "\"" ++ innerCont ++ rest)) = _
  refine reScan_step ?_ ?_
  · exact hm
  · have e1 : (str "a:schemeClr val=\"").length = 17 := rfl
    have e2 : (str "\"").length = 1 := rfl
    have e3 : innerCont.length = 38 := rfl
    simp [e1, e2, e3]
    omega

theorem reScan_srgbElem {v : Str} (hv : isValidHexColor v = true) (rest : Str) :
    reScan patSrgb (elemSrgb v ++ rest) =
      (([], gpsSrgb v, opnSrgb v) :: (reScan patSrgb ('/' :: '>' :: rest)).1,
       (reScan patSrgb ('/' :: '>' :: rest)).2) := by
  have hm := matchAt_patSrgb_elemSrgb hv rest
  have h6 := hexColor_len hv
  show reScan patSrgb ('<' :: (str "a:srgbClr val=\"" ++ v ++ str "\"/>" ++ rest)) = _
  refine reScan_step ?_ ?_
  · exact hm
  · simp [h6]
    omega


/-! ### Claim C1 — atomicity of the composed two-pass rewrite -/

/-- Claim C1, counterexample: the claim asserts that for a mapping with
pairs A→B and B→C the composed pipeline (scheme pass then hex pass)
never produces C,C.  But for the cross-type chain
{accent1→FF0000, FF0000→accent2} on a document holding one accent1
scheme reference and one FF0000 RGB reference, the scheme pass rewrites
accent1 into an `srgbClr FF0000` element whose text the subsequent hex
pass re-scans, so both references end up as accent2 — exactly the C,C
outcome the claim rules out. -/
theorem C1_counterexample :
    rewritePipeline (str "<a:schemeClr val=\"accent1\"/><a:srgbClr val=\"FF0000\"/>")
        [(str "accent1", str "FF0000"), (str "FF0000", str "accent2")] =
      .ok (str "<a:schemeClr val=\"accent2\"/><a:schemeClr val=\"accent2\"/>") := by
  rfl

/-- Claim C1, amended: atomicity holds within a single pass, hence for
chains that stay inside one reference type: for a scheme-typed chain
A→B→C (all scheme tokens, A ≠ B) the pipeline rewrites the A-occurrence
to B and the B-occurrence to C, and likewise for a hex-typed chain
(values canonicalised to uppercase).  The composed pipeline is not
atomic for cross-type chains, where the scheme pass's output is
re-scanned by the hex pass (see the counterexample). -/
theorem C1_amended (A B C gap1 gap2 gap3 : Str)
    (hg1 : ∀ c ∈ gap1, ¬ (c = '<')) (hg2 : ∀ c ∈ gap2, ¬ (c = '<'))
    (hg3 : ∀ c ∈ gap3, ¬ (c = '<')) :
    (A ∈ schemeTokens → B ∈ schemeTokens → C ∈ schemeTokens → ¬ (A = B) →
      rewritePipeline (gap1 ++ (elemSch A ++ (gap2 ++ (elemSch B ++ gap3))))
          [(A, B), (B, C)] =
        .ok (gap1 ++ (elemSch B ++ (gap2 ++ (elemSch C ++ gap3))))) ∧
    (isValidHexColor A = true → isValidHexColor B = true → isValidHexColor C = true →
      ¬ (upper A = upper B) →
      rewritePipeline (gap1 ++ (elemSrgb A ++ (gap2 ++ (elemSrgb B ++ gap3))))
          [(A, B), (B, C)] =
        .ok (gap1 ++ (elemSrgb (upper B) ++ (gap2 ++ (elemSrgb (upper C) ++ gap3))))) := by
  constructor
  · intro hA hB hC hAB
    have hscan : reScan patScheme (gap1 ++ (elemSch A ++ (gap2 ++ (elemSch B ++ gap3)))) =
        ([(gap1, gpsSch A, opnSch A), ('/' :: '>' :: gap2, gpsSch B, opnSch B)],
         '/' :: '>' :: gap3) := by
      rw [reScan_clean_pre matchAt_patScheme_ne _ hg1, reScan_schemeElemSch hA]
      have : reScan patScheme ('/' :: '>' :: (gap2 ++ (elemSch B ++ gap3))) =
          prependGap ('/' :: '>' :: gap2) (reScan patScheme (elemSch B ++ gap3)) := by
        show reScan patScheme (('/' :: '>' :: gap2) ++ (elemSch B ++ gap3)) = _
        refine reScan_clean_pre matchAt_patScheme_ne _ ?_
        intro c hc
        simp at hc
        rcases hc with rfl | rfl | hc
        · decide
        · decide
        · exact hg2 c hc
      rw [this, reScan_schemeElemSch hB,
          reScan_clean matchAt_patScheme_ne (by
            intro c hc
            simp at hc
            rcases hc with rfl | rfl | hc
            · decide
            · decide
            · exact hg3 c hc)]
      rw [prependGap_items, prependGap_items]
      simp
    have hpass1 : ReplaceSchemeColorsWithSrgb
        (gap1 ++ (elemSch A ++ (gap2 ++ (elemSch B ++ gap3)))) [(A, B), (B, C)] =
        .ok (gap1 ++ (elemSch B ++ (gap2 ++ (elemSch C ++ gap3)))) := by
      simp only [ReplaceSchemeColorsWithSrgb, buildSchemeToHex, buildSchemeToScheme,
        List.foldl, token_valid hA, token_valid hB, token_not_hex hB, token_not_hex hC,
        Bool.true_and, Bool.not_false, if_true, if_false]
      simp only [ReplaceSchemeColors]
      simp only [hscan]
      simp [schemeItem, groupD, getGroup, gpsSch, opnSch, alookup, hAB, elemSch, str]
    rw [rewritePipeline, hpass1]
    simp [ReplaceSrgbColors, buildHexMapping, token_not_hex hA, token_not_hex hB]
  · intro hA hB hC hAB
    have hpass1 : ReplaceSchemeColorsWithSrgb
        (gap1 ++ (elemSrgb A ++ (gap2 ++ (elemSrgb B ++ gap3)))) [(A, B), (B, C)] =
        .ok (gap1 ++ (elemSrgb A ++ (gap2 ++ (elemSrgb B ++ gap3)))) := by
      simp [ReplaceSchemeColorsWithSrgb, buildSchemeToHex, buildSchemeToScheme,
        hex_not_scheme hA, hex_not_scheme hB, ReplaceSchemeColors]
    have hscan : reScan patSrgb (gap1 ++ (elemSrgb A ++ (gap2 ++ (elemSrgb B ++ gap3)))) =
        ([(gap1, gpsSrgb A, opnSrgb A), ('/' :: '>' :: gap2, gpsSrgb B, opnSrgb B)],
         '/' :: '>' :: gap3) := by
      rw [reScan_clean_pre matchAt_patSrgb_ne _ hg1, reScan_srgbElem hA]
      have : reScan patSrgb ('/' :: '>' :: (gap2 ++ (elemSrgb B ++ gap3))) =
          prependGap ('/' :: '>' :: gap2) (reScan patSrgb (elemSrgb B ++ gap3)) := by
        show reScan patSrgb (('/' :: '>' :: gap2) ++ (elemSrgb B ++ gap3)) = _
        refine reScan_clean_pre matchAt_patSrgb_ne _ ?_
        intro c hc
        simp at hc
        rcases hc with rfl | rfl | hc
        · decide
        · decide
        · exact hg2 c hc
      rw [this, reScan_srgbElem hB,
          reScan_clean matchAt_patSrgb_ne (by
            intro c hc
            simp at hc
            rcases hc with rfl | rfl | hc
            · decide
            · decide
            · exact hg3 c hc)]
      rw [prependGap_items, prependGap_items]
      simp
    rw [rewritePipeline, hpass1]
    simp only [ReplaceSrgbColors, buildHexMapping, List.foldl, hA, hB, if_true]
    simp only [hscan]
    simp [srgbItem, groupD, getGroup, gpsSrgb, opnSrgb, alookup, hAB, hB, hC, elemSrgb, str]

/-- Witness for C1_amended: concrete scheme-typed and hex-typed chains
through the pipeline. -/
theorem C1_amended_witness :
    (rewritePipeline
        (str "x" ++ (elemSch (str "accent1") ++ (str "y" ++ (elemSch (str "accent2") ++ str "z"))))
        [(str "accent1", str "accent2"), (str "accent2", str "dk1")] =
      .ok (str "x" ++ (elemSch (str "accent2") ++ (str "y" ++ (elemSch (str "dk1") ++ str "z"))))) ∧
    (rewritePipeline
        (str "x" ++ (elemSrgb (str "aabb01") ++ (str "y" ++ (elemSrgb (str "FF0000") ++ str "z"))))
        [(str "aabb01", str "FF0000"), (str "FF0000", str "00ff7f")] =
      .ok (str "x" ++ (elemSrgb (upper (str "FF0000")) ++
            (str "y" ++ (elemSrgb (upper (str "00ff7f")) ++ str "z"))))) :=
  ⟨(C1_amended (str "accent1") (str "accent2") (str "dk1") (str "x") (str "y") (str "z")
      (by decide) (by decide) (by decide)).1 (by decide) (by decide) (by decide) (by decide),
   (C1_amended (str "aabb01") (str "FF0000") (str "00ff7f") (str "x") (str "y") (str "z")
      (by decide) (by decide) (by decide)).2 (by decide) (by decide) (by decide) (by decide)⟩

/-! ### Claim C2 — scheme→hex cross-type conversion vs scheme→scheme -/

/-- Claim C2: on a matched scheme-color element — with a nested modifier
child or self-closing — a scheme→hex mapping pair makes
`ReplaceSchemeColorsWithSrgb` replace the whole element (children
included) by a self-closing `srgbClr` element carrying the uppercased
hex value, while a scheme→scheme pair keeps the element's name and
children and rewrites only the `val` attribute. -/
theorem C2_conversion (A T S gapL gapR : Str)
    (hA : A ∈ schemeTokens) (hT : isValidHexColor T = true)
    (hS : ValidSchemeColors S = true)
    (hgL : ∀ c ∈ gapL, ¬ (c = '<')) (hgR : ∀ c ∈ gapR, ¬ (c = '<')) :
    (ReplaceSchemeColorsWithSrgb (gapL ++ (elemCont A ++ gapR)) [(A, T)] =
        .ok (gapL ++ (elemSrgb (upper T) ++ gapR))) ∧
    (ReplaceSchemeColorsWithSrgb (gapL ++ (elemSch A ++ gapR)) [(A, T)] =
        .ok (gapL ++ (elemSrgb (upper T) ++ gapR))) ∧
    (ReplaceSchemeColorsWithSrgb (gapL ++ (elemCont A ++ gapR)) [(A, S)] =
        .ok (gapL ++ (elemCont S ++ gapR))) ∧
    (ReplaceSchemeColorsWithSrgb (gapL ++ (elemSch A ++ gapR)) [(A, S)] =
        .ok (gapL ++ (elemSch S ++ gapR))) := by
  refine ⟨?_, ?_, ?_, ?_⟩
  · have hscan : reScan patFull (gapL ++ (elemCont A ++ gapR)) =
        ([(gapL, gpsFullCont A, elemCont A)], gapR) := by
      rw [reScan_clean_pre matchAt_patFull_ne _ hgL, reScan_fullElemCont hA,
          reScan_clean matchAt_patFull_ne hgR, prependGap_items]
      simp
    simp only [ReplaceSchemeColorsWithSrgb, buildSchemeToHex, List.foldl,
      token_valid hA, hT, Bool.true_and, if_true, if_false]
    simp only [hscan]
    simp [fullItem, groupD, getGroup, gpsFullCont, alookup, elemSrgb, str]
  · have hscan : reScan patFull (gapL ++ (elemSch A ++ gapR)) =
        ([(gapL, gpsFullSelf A, elemSch A)], gapR) := by
      rw [reScan_clean_pre matchAt_patFull_ne _ hgL, reScan_fullElemSch hA,
          reScan_clean matchAt_patFull_ne hgR, prependGap_items]
      simp
    simp only [ReplaceSchemeColorsWithSrgb, buildSchemeToHex, List.foldl,
      token_valid hA, hT, Bool.true_and, if_true, if_false]
    simp only [hscan]
    simp [fullItem, groupD, getGroup, gpsFullSelf, alookup, elemSrgb, str]
  · have hscan : reScan patScheme (gapL ++ (elemCont A ++ gapR)) =
        ([(gapL, gpsSch A, opnSch A)], innerCont ++ gapR) := by
      rw [reScan_clean_pre matchAt_patScheme_ne _ hgL, reScan_schemeElemCont hA,
          reScan_patScheme_inner hgR, prependGap_items]
      simp
    simp only [ReplaceSchemeColorsWithSrgb, buildSchemeToHex, buildSchemeToScheme,
      List.foldl, token_valid hA, scheme_not_hex hS, Bool.true_and, Bool.and_false,
      Bool.not_false, Bool.and_true, if_true, if_false]
    simp only [ReplaceSchemeColors, hscan]
    simp [schemeItem, groupD, getGroup, gpsSch, opnSch, alookup, elemCont, str]
  · have hscan : reScan patScheme (gapL ++ (elemSch A ++ gapR)) =
        ([(gapL, gpsSch A, opnSch A)], '/' :: '>' :: gapR) := by
      rw [reScan_clean_pre matchAt_patScheme_ne _ hgL, reScan_schemeElemSch hA,
          reScan_clean matchAt_patScheme_ne (by
            intro c hc
            simp at hc
            rcases hc with rfl | rfl | hc
            · decide
            · decide
            · exact hgR c hc), prependGap_items]
      simp
    simp only [ReplaceSchemeColorsWithSrgb, buildSchemeToHex, buildSchemeToScheme,
      List.foldl, token_valid hA, scheme_not_hex hS, Bool.true_and, Bool.and_false,
      Bool.not_false, Bool.and_true, if_true, if_false]
    simp only [ReplaceSchemeColors, hscan]
    simp [schemeItem, groupD, getGroup, gpsSch, opnSch, alookup, elemSch, str]

/-- Witness for C2_conversion: a container element with a tint child and
a self-closing element under the mapping accent1→ff00aa (hex target)
resp. accent1→dk2 (scheme target). -/
theorem C2_conversion_witness :
    (ReplaceSchemeColorsWithSrgb (str "u" ++ (elemCont (str "accent1") ++ str "w"))
        [(str "accent1", str "ff00aa")] =
      .ok (str "u" ++ (elemSrgb (upper (str "ff00aa")) ++ str "w"))) ∧
    (ReplaceSchemeColorsWithSrgb (str "u" ++ (elemSch (str "accent1") ++ str "w"))
        [(str "accent1", str "ff00aa")] =
      .ok (str "u" ++ (elemSrgb (upper (str "ff00aa")) ++ str "w"))) ∧
    (ReplaceSchemeColorsWithSrgb (str "u" ++ (elemCont (str "accent1") ++ str "w"))
        [(str "accent1", str "dk2")] =
      .ok (str "u" ++ (elemCont (str "dk2") ++ str "w"))) ∧
    (ReplaceSchemeColorsWithSrgb (str "u" ++ (elemSch (str "accent1") ++ str "w"))
        [(str "accent1", str "dk2")] =
      .ok (str "u" ++ (elemSch (str "dk2") ++ str "w"))) :=
  C2_conversion (str "accent1") (str "ff00aa") (str "dk2") (str "u") (str "w")
    (by decide) (by decide) (by decide) (by decide) (by decide)

/-! ### Claim C3 — the hex-color rewrite pass -/

/-- Claim C3: on an `srgbClr` element with a six-hex-digit value,
`ReplaceSrgbColors` matches the value against a mapping source
case-insensitively (both uppercased); a hex target rewrites the value to
its uppercase form, a scheme-token target replaces the element by a
self-closing scheme-color element carrying the token, and a
non-matching element passes through unchanged. -/
theorem C3_hexPass (v src tgt gapL gapR : Str)
    (hv : isValidHexColor v = true) (hsrc : isValidHexColor src = true)
    (hgL : ∀ c ∈ gapL, ¬ (c = '<')) (hgR : ∀ c ∈ gapR, ¬ (c = '<')) :
    (upper v = upper src → isValidHexColor tgt = true →
      ReplaceSrgbColors (gapL ++ (elemSrgb v ++ gapR)) [(src, tgt)] =
        .ok (gapL ++ (elemSrgb (upper tgt) ++ gapR))) ∧
    (upper v = upper src → ValidSchemeColors tgt = true →
      ReplaceSrgbColors (gapL ++ (elemSrgb v ++ gapR)) [(src, tgt)] =
        .ok (gapL ++ (elemSch tgt ++ gapR))) ∧
    (¬ (upper v = upper src) →
      ReplaceSrgbColors (gapL ++ (elemSrgb v ++ gapR)) [(src, tgt)] =
        .ok (gapL ++ (elemSrgb v ++ gapR))) := by
  have hscan : reScan patSrgb (gapL ++ (elemSrgb v ++ gapR)) =
      ([(gapL, gpsSrgb v, opnSrgb v)], '/' :: '>' :: gapR) := by
    rw [reScan_clean_pre matchAt_patSrgb_ne _ hgL, reScan_srgbElem hv,
        reScan_clean matchAt_patSrgb_ne (by
          intro c hc
          simp at hc
          rcases hc with rfl | rfl | hc
          · decide
          · decide
          · exact hgR c hc)]
    rw [prependGap_items]
    simp
  refine ⟨?_, ?_, ?_⟩
  · intro heq htgt
    simp only [ReplaceSrgbColors, buildHexMapping, List.foldl, hsrc, if_true]
    simp only [hscan]
    simp [srgbItem, groupD, getGroup, gpsSrgb, opnSrgb, heq, alookup, htgt, elemSrgb, str]
  · intro heq htgt
    have htgt2 : isValidHexColor tgt = false := scheme_not_hex htgt
    simp only [ReplaceSrgbColors, buildHexMapping, List.foldl, hsrc, if_true]
    simp only [hscan]
    simp [srgbItem, groupD, getGroup, gpsSrgb, opnSrgb, heq, alookup, htgt2, elemSrgb,
      elemSch, firstIdx, hasPre, str]
  · intro hne
    have hne2 : ¬ (upper src = upper v) := fun h => hne h.symm
    simp only [ReplaceSrgbColors, buildHexMapping, List.foldl, hsrc, if_true]
    simp only [hscan]
    simp [srgbItem, groupD, getGroup, gpsSrgb, opnSrgb, alookup, hne2, elemSrgb, str]

/-- Witness for C3_hexPass: a mixed-case value aAbB01 against the source
AABB01 (hex target 00ff7f, resp. scheme target accent3), and against the
non-matching source 112233. -/
theorem C3_hexPass_witness :
    (ReplaceSrgbColors (str "u" ++ (elemSrgb (str "aAbB01") ++ str "w"))
        [(str "AABB01", str "00ff7f")] =
      .ok (str "u" ++ (elemSrgb (upper (str "00ff7f")) ++ str "w"))) ∧
    (ReplaceSrgbColors (str "u" ++ (elemSrgb (str "aAbB01") ++ str "w"))
        [(str "AABB01", str "accent3")] =
      .ok (str "u" ++ (elemSch (str "accent3") ++ str "w"))) ∧
    (ReplaceSrgbColors (str "u" ++ (elemSrgb (str "aAbB01") ++ str "w"))
        [(str "112233", str "00ff7f")] =
      .ok (str "u" ++ (elemSrgb (str "aAbB01") ++ str "w"))) :=
  ⟨(C3_hexPass (str "aAbB01") (str "AABB01") (str "00ff7f") (str "u") (str "w")
      (by decide) (by decide) (by decide) (by decide)).1 (by decide) (by decide),
   (C3_hexPass (str "aAbB01") (str "AABB01") (str "accent3") (str "u") (str "w")
      (by decide) (by decide) (by decide) (by decide)).2.1 (by decide) (by decide),
   (C3_hexPass (str "aAbB01") (str "112233") (str "00ff7f") (str "u") (str "w")
      (by decide) (by decide) (by decide) (by decide)).2.2 (by decide)⟩

end PptxToolkit
